import Mathlib

/-!
Verification development for the generation-serving subsystem of the
offsec-ai-companion repository: the LLM request queue (semaphore with FIFO
waiters), the 6-tier Gemini provider fallback chain, the TTL/LRU response
cache, the hash-fallback embedding service, the RAG scoring/filter pipeline
and the multi-strategy JSON output parser.

Each definition is a shallow embedding of the corresponding TypeScript
function; machine timestamps are `Nat` milliseconds, JS numbers that carry
similarity scores are `ℚ`, and thrown exceptions are `Except` values.
-/

namespace OffsecAI

/-! ## LLM request queue (src/services/queue.ts)

`class LLMQueue` keeps a `running` counter and a FIFO `waiting` array of
resolvers.  `acquire` increments `running` when below `maxConcurrent`,
otherwise appends a waiter; `release` hands the freed slot to the head of the
wait list (leaving `running` unchanged) or, with no waiter, decrements
`running`.  The embedding adds ghost bookkeeping: `holders` counts callers
currently holding a slot (immediate grants plus waiters handed a freed slot,
minus completed releases), `enqueued`/`resumed` record waiter ids in arrival
and hand-off order, and `nextId` names waiters. -/

namespace Queue

/-- Source: `export const llmQueue = new LLMQueue(2)`. -/
def maxConcurrent : Nat := 2

structure QueueState where
  running : Nat
  waiting : List Nat
  /-- Ghost: waiter ids that have been handed a freed slot, in hand-off order. -/
  resumed : List Nat
  /-- Ghost: every waiter id ever queued, in arrival order. -/
  enqueued : List Nat
  /-- Ghost: callers currently holding a slot. -/
  holders : Nat
  nextId : Nat
deriving Repr, DecidableEq

def initState : QueueState := ⟨0, [], [], [], 0, 0⟩

inductive Event where
  | acquire
  | release
deriving Repr, DecidableEq

/-- One `acquire()` or `release()` call, exactly following the source.
On a hand-off the releasing caller stops holding and the resumed waiter
starts holding, so `holders` is unchanged. -/
def step (max : Nat) (s : QueueState) : Event → QueueState
  | .acquire =>
      if s.running < max then
        { s with running := s.running + 1, holders := s.holders + 1 }
      else
        { s with waiting := s.waiting ++ [s.nextId],
                 enqueued := s.enqueued ++ [s.nextId],
                 nextId := s.nextId + 1 }
  | .release =>
      match s.waiting with
      | w :: rest =>
          { s with waiting := rest, resumed := s.resumed ++ [w] }
      | [] =>
          { s with running := s.running - 1, holders := s.holders - 1 }

def run (max : Nat) (s : QueueState) : List Event → QueueState
  | [] => s
  | e :: es => run max (step max s e) es

/-- A trace is valid when every `release` is performed by a caller that holds
a slot (the source only calls `release` from `finally` blocks of callers whose
`acquire` resolved). -/
def validFrom (max : Nat) : QueueState → List Event → Bool
  | _, [] => true
  | s, .acquire :: es => validFrom max (step max s .acquire) es
  | s, .release :: es => decide (0 < s.holders) && validFrom max (step max s .release) es

/-- The inductive invariant of the queue state machine. -/
def Inv (max : Nat) (s : QueueState) : Prop :=
  s.holders = s.running ∧ s.running ≤ max ∧ s.resumed ++ s.waiting = s.enqueued

end Queue

/-! ## Provider fallback chain (src/services/ai.ts)

Six Gemini provider slots, a priority list frozen at module load, lazy
cooldown re-activation, and `generateCompletion` trying each priority entry
at most once inside an `llmQueue.acquire()/release()` bracket.  Network
outcomes are supplied by an oracle `outcome : ProviderSlot → AttemptOutcome`;
`Date.now()` during one call is approximated by a single `now` (the
intra-call clock drift only affects log fields, not control flow). -/

namespace AI

inductive ProviderSlot where
  | gemini1 | gemini2 | gemini3 | gemini4 | gemini5 | gemini6
deriving Repr, DecidableEq

def allSlots : List ProviderSlot :=
  [.gemini1, .gemini2, .gemini3, .gemini4, .gemini5, .gemini6]

structure ProviderState where
  model : String
  name : String
  /-- Timestamp when the rate limit expires; 0 = not limited. -/
  rateLimitedUntil : Nat
  /-- False if credentials are missing (or, later, after a 404). -/
  isActive : Bool
deriving Repr, DecidableEq

/-- Source: `buildProvider`; `isActive: !!(slot.apiKey && slot.model)`. -/
def buildProvider (apiKey model name : String) : ProviderState :=
  { model := model, name := name, rateLimitedUntil := 0,
    isActive := apiKey ≠ "" ∧ model ≠ "" }

/-- Source: `RATE_LIMIT_COOLDOWN_MS = 30_000`. -/
def RATE_LIMIT_COOLDOWN_MS : Nat := 30000

/-- Source: `REQUEST_TIMEOUT_MS = 30_000` (only bounds latency; a timeout
surfaces as a thrown error classified by message, with no state change). -/
def REQUEST_TIMEOUT_MS : Nat := 30000

/-- Source: `PROVIDER_PRIORITY = ([...]).filter(key => providers[key].isActive)`,
computed once at module load from the initial provider table. -/
def PROVIDER_PRIORITY (provs : ProviderSlot → ProviderState) : List ProviderSlot :=
  allSlots.filter (fun k => (provs k).isActive)

def updateProv (provs : ProviderSlot → ProviderState) (key : ProviderSlot)
    (p : ProviderState) : ProviderSlot → ProviderState :=
  fun k => if k = key then p else provs k

/-- The observable outcome of one `provider.client.chat.completions.create`
call: a response carrying `choices[0]?.message?.content` (possibly absent),
or a thrown API error with an optional HTTP status. The error message only
feeds logging/classification of transient errors, which cause no state
change. -/
inductive AttemptOutcome where
  | response (content : Option String)
  | failure (status : Option Nat) (message : String)
deriving Repr, DecidableEq

/-- Source: `class LLMError` (provider, message). -/
structure LLMError where
  provider : String
  message : String
deriving Repr, DecidableEq

structure GenAttemptState where
  provs : ProviderSlot → ProviderState
  attempted : List ProviderSlot
  lastError : Option String

/-- The provider loop of `generateCompletion` (`for (const key of
PROVIDER_PRIORITY)`): skip providers whose cooldown has not elapsed, clear an
elapsed cooldown, attempt the provider, return the first non-empty
completion, mark 429/402 with a cooldown, set `isActive := false` on 404,
and throw `LLMError` once the list is exhausted. -/
def tryProviders (now : Nat) (outcome : ProviderSlot → AttemptOutcome) :
    List ProviderSlot → GenAttemptState → Except LLMError String × GenAttemptState
  | [], st =>
      (.error ⟨"all", st.lastError.getD "All LLM providers failed"⟩, st)
  | key :: rest, st =>
      let p := st.provs key
      if 0 < p.rateLimitedUntil ∧ now < p.rateLimitedUntil then
        -- rate-limited and not yet recovered: skip
        tryProviders now outcome rest st
      else
        -- an elapsed cooldown is cleared lazily before the attempt
        let st1 : GenAttemptState :=
          if 0 < p.rateLimitedUntil then
            { st with provs := updateProv st.provs key ({ p with rateLimitedUntil := 0 }) }
          else st
        let st2 : GenAttemptState := { st1 with attempted := st1.attempted ++ [key] }
        match outcome key with
        | .response content =>
            match content with
            | some text =>
                if text = "" then
                  -- `if (!text) continue`: the empty string is falsy
                  tryProviders now outcome rest st2
                else
                  (.ok text, st2)
            | none => tryProviders now outcome rest st2
        | .failure status msg =>
            let st3 : GenAttemptState := { st2 with lastError := some msg }
            let st4 : GenAttemptState :=
              if status = some 429 ∨ status = some 402 then
                let limited : ProviderState :=
                  { st3.provs key with rateLimitedUntil := now + RATE_LIMIT_COOLDOWN_MS }
                { st3 with provs := updateProv st3.provs key limited }
              else if status = some 404 then
                let disabled : ProviderState := { st3.provs key with isActive := false }
                { st3 with provs := updateProv st3.provs key disabled }
              else st3
            tryProviders now outcome rest st4

/-- Full `generateCompletion`: `await llmQueue.acquire()`, the provider
loop, and `llmQueue.release()` in a `finally` block, so the release happens
on the success return and on the final `throw` alike. -/
def generateCompletion (priority : List ProviderSlot) (now : Nat)
    (outcome : ProviderSlot → AttemptOutcome)
    (provs : ProviderSlot → ProviderState) (q : Queue.QueueState) :
    (Except LLMError String × GenAttemptState) × Queue.QueueState :=
  let q1 := Queue.step Queue.maxConcurrent q .acquire
  let r := tryProviders now outcome priority ⟨provs, [], none⟩
  let q2 := Queue.step Queue.maxConcurrent q1 .release
  (r, q2)

/-- The scan loop of `getActiveProvider`: first priority entry that is not
rate-limited (clearing an elapsed cooldown), or `none` when every entry is
still cooling. -/
def getActiveProviderLoop (now : Nat) (provs : ProviderSlot → ProviderState) :
    List ProviderSlot → Option (ProviderSlot × (ProviderSlot → ProviderState))
  | [] => none
  | key :: rest =>
      let p := provs key
      if 0 < p.rateLimitedUntil then
        if p.rateLimitedUntil ≤ now then
          some (key, updateProv provs key { p with rateLimitedUntil := 0 })
        else
          getActiveProviderLoop now provs rest
      else
        some (key, provs)

/-- Source: `getActiveProvider` — scan for an available provider; when all
are rate-limited, `reduce` picks the one whose `rateLimitedUntil` is
soonest (first wins ties).  This function is never called anywhere in the
repository. -/
def getActiveProvider (now : Nat) (priority : List ProviderSlot)
    (provs : ProviderSlot → ProviderState) :
    Option (ProviderSlot × (ProviderSlot → ProviderState)) :=
  match getActiveProviderLoop now provs priority with
  | some r => some r
  | none =>
      match priority with
      | [] => none  -- `reduce` on an empty array throws; priority is nonempty in practice
      | k :: rest =>
          some (rest.foldl
            (fun a b =>
              if (provs a).rateLimitedUntil ≤ (provs b).rateLimitedUntil then a else b)
            k, provs)

end AI

/-! ## Response cache (src/services/cache.ts)

A JS `Map<string, CacheEntry>` whose iteration order is insertion order:
`getCached` deletes and re-inserts a live entry (moving it to the end),
`setCache` evicts the first key when at capacity and then inserts or
overwrites (a `Map.set` on an existing key keeps its position), and a
periodic timer purges expired entries.  The map is modelled as a list with
the oldest entry at the front; `lastAccess` is a ghost field recording the
logical time (operation index) of the entry's last fresh insertion or
successful read. -/

namespace Cache

/-- Source: `MAX_ENTRIES = 200`. -/
def MAX_ENTRIES : Nat := 200

/-- Source: `DEFAULT_TTL_MS = 5 * 60 * 1000`. -/
def DEFAULT_TTL_MS : Nat := 5 * 60 * 1000

structure Slot where
  key : String
  value : String
  expiresAt : Nat
  /-- Ghost: logical time of the last fresh insertion or successful read. -/
  lastAccess : Nat
deriving Repr, DecidableEq

/-- The `Map` contents in iteration order, oldest first. -/
abbrev CacheMap := List Slot

/-- `Map.delete key` (keys are unique in a `Map`, so removing the first
occurrence is exact). -/
def eraseKey (key : String) : CacheMap → CacheMap
  | [] => []
  | s :: rest => if s.key = key then rest else s :: eraseKey key rest

/-- `Map.set key value`: overwrite in place when present (position and ghost
access time unchanged — an overwrite is not a read), append when fresh. -/
def mapSet (key value : String) (expiresAt clock : Nat) : CacheMap → CacheMap
  | [] => [⟨key, value, expiresAt, clock⟩]
  | s :: rest =>
      if s.key = key then { s with value := value, expiresAt := expiresAt } :: rest
      else s :: mapSet key value expiresAt clock rest

/-- Source: `getCached` — `null` on a miss, purge-and-miss on an expired
entry, and on a hit the delete/re-insert pair moves the key to the Map end. -/
def getCached (key : String) (now clock : Nat) (c : CacheMap) :
    Option String × CacheMap :=
  match c.find? (fun s => s.key = key) with
  | none => (none, c)
  | some s =>
      if s.expiresAt < now then (none, eraseKey key c)
      else (some s.value, eraseKey key c ++ [{ s with lastAccess := clock }])

/-- Source: `setCache` — when at capacity, `const lruKey =
cache.keys().next().value; if (lruKey) cache.delete(lruKey)`;
note that the empty-string key is falsy in JS, so when the first key is
`""` no eviction happens at all; then `cache.set(key, ...)`. -/
def setCache (key value : String) (ttlMs now clock : Nat) (c : CacheMap) : CacheMap :=
  let c1 : CacheMap :=
    if MAX_ENTRIES ≤ c.length then
      match c with
      | [] => []
      | s :: rest => if s.key = "" then s :: rest else rest
    else c
  mapSet key value (now + ttlMs) clock c1

/-- A cache operation together with the wall-clock time `Date.now()` at
which it runs. -/
inductive COp where
  | get (key : String) (now : Nat)
  | set (key : String) (value : String) (ttlMs now : Nat)
  /-- The periodic cleanup timer (purges entries with `now > expiresAt`). -/
  | sweep (now : Nat)
deriving Repr, DecidableEq

def COp.key : COp → String
  | .get k _ => k
  | .set k _ _ _ => k
  | .sweep _ => ""

def applyOp (clock : Nat) (c : CacheMap) : COp → CacheMap
  | .get key now => (getCached key now clock c).2
  | .set key value ttlMs now => setCache key value ttlMs now clock c
  | .sweep now => c.filter (fun s => ¬ s.expiresAt < now)

/-- Run a sequence of cache operations; the logical clock is the operation
index. -/
def runOps : List COp → CacheMap → Nat → CacheMap
  | [], c, _ => c
  | op :: rest, c, clock => runOps rest (applyOp clock c op) (clock + 1)

def keys (c : CacheMap) : List String := c.map Slot.key

def accessTimes (c : CacheMap) : List Nat := c.map Slot.lastAccess

/-- Does this operation store under the empty-string key?  Such a `set`
defeats the eviction guard (`if (lruKey)`) and breaks the capacity bound,
see the counterexample theorem. -/
def COp.setsEmptyKey : COp → Bool
  | .set k _ _ _ => k = ""
  | _ => false

/-- The inductive invariant: unique keys, entries ordered by strictly
increasing last-access time, all access times in the logical past, no
empty-string key, and the size bound. -/
structure Inv (c : CacheMap) (clock : Nat) : Prop where
  nodup : (keys c).Nodup
  sorted : (accessTimes c).Pairwise (· < ·)
  below : ∀ t ∈ accessTimes c, t < clock
  noEmptyKey : ∀ k ∈ keys c, k ≠ ""
  size : c.length ≤ MAX_ENTRIES

end Cache

/-! ## String helpers shared by the embeddings, RAG and parser models

JS string methods (`toLowerCase`, `trim`, `split`) are modelled on
`List Char` so that every definition evaluates inside the kernel. -/

namespace Str

/-- The characters matched by the regex class `\s` that can occur here
(the exotic Unicode space classes are irrelevant to these inputs). -/
def isJsWs (c : Char) : Bool :=
  c = ' ' ∨ c = '\t' ∨ c = '\n' ∨ c = '\r' ∨ c = Char.ofNat 11 ∨ c = Char.ofNat 12

/-- JS `String.prototype.trim`. -/
def jsTrimList (l : List Char) : List Char :=
  ((l.dropWhile isJsWs).reverse.dropWhile isJsWs).reverse

def jsTrim (s : String) : String := ⟨jsTrimList s.data⟩

/-- JS `String.prototype.toLowerCase` (simple case folding). -/
def jsToLower (s : String) : String := ⟨s.data.map Char.toLower⟩

/-- Split at every character satisfying `p` (JS `split` against a
single-character class; splitting on `\s` instead of `\s+` only adds empty
pieces, which every caller filters out). -/
def splitOnPred (p : Char → Bool) : List Char → List Char → List String
  | [], acc => [⟨acc.reverse⟩]
  | c :: rest, acc =>
      if p c then ⟨acc.reverse⟩ :: splitOnPred p rest []
      else splitOnPred p rest (c :: acc)

/-- JS `String.prototype.split('\n')` / `split(/\s/)`. -/
def splitBy (p : Char → Bool) (s : String) : List String :=
  splitOnPred p s.data []

end Str

/-! ## Embeddings (src/services/ai.ts, `generateEmbeddings`)

The Gemini batch-embedding REST call is modelled by an oracle
`api : Except String (List (List ℚ))`: every failure mode of the source —
non-`ok` HTTP status, network error, abort on timeout, malformed response
body (reading `.map` of a missing `embeddings` field throws) — raises inside
the `try` block and is represented by `Except.error`. -/

namespace Embed

/-- Executable stand-in for `Math.sqrt` (floating point in the source).
None of the proved claims depend on its value, only on its positivity for
positive arguments. -/
def qSqrt (q : ℚ) : ℚ := (Nat.sqrt q.num.toNat : ℚ) / (Nat.sqrt q.den : ℚ)

/-- Add `q` to the element at index `i` (source: `embedding[i % dims] += ...`). -/
def addAt : List ℚ → Nat → ℚ → List ℚ
  | [], _, _ => []
  | x :: xs, 0, q => (x + q) :: xs
  | x :: xs, n + 1, q => x :: addAt xs n q

/-- Source: `simpleHashEmbedding(text, dims = 384)` — accumulate
`charCode / 255` round-robin over `dims` buckets, then normalize by the
magnitude when it is positive.  `charCodeAt` agrees with the Unicode code
point on the basic multilingual plane. -/
def simpleHashEmbedding (text : String) (dims : Nat := 384) : List ℚ :=
  let normalized := Str.jsTrim (Str.jsToLower text)
  let embedding :=
    normalized.data.enum.foldl
      (fun acc p => addAt acc (p.1 % dims) ((p.2.toNat : ℚ) / 255))
      (List.replicate dims (0 : ℚ))
  let magnitude := qSqrt (embedding.foldl (fun sum v => sum + v * v) 0)
  if 0 < magnitude then embedding.map (fun v => v / magnitude) else embedding

/-- Source: `generateEmbeddings(texts)` — use the batch API when a key is
configured (`config.ai.embeddingApiKey || config.ai.gemini1.apiKey`), fall
back to the hash embedding when the key is missing, and catch every API
failure with the same hash fallback. -/
def generateEmbeddings (embeddingApiKey gemini1ApiKey : String)
    (api : Except String (List (List ℚ))) (texts : List String) :
    List (List ℚ) :=
  let apiKey := if embeddingApiKey ≠ "" then embeddingApiKey else gemini1ApiKey
  if apiKey ≠ "" then
    match api with
    | .ok embs => embs
    | .error _ => texts.map (fun t => simpleHashEmbedding t)
  else
    texts.map (fun t => simpleHashEmbedding t)

end Embed

/-! ## RAG pipeline scoring and grounding decision (src/mcp/modules/rag.ts)

`ragPipeline` scores ChromaDB neighbors (`similarity = 1 - distance` plus a
`+0.05` keyword boost per query term found in the chunk), filters at the
0.3 threshold, sorts descending, keeps `config.rag.rerankTop`, and returns
`null` (→ LLM-only fallback) when no chunk survives.  Generation and JSON
parsing of the answer text are orthogonal to grounding and are abstracted
as the `answerText`/followup/takeaway parameters. -/

namespace RAG

structure RawChunk where
  id : String
  content : String
  source : Option String
  url : Option String
  distance : ℚ
deriving Repr, DecidableEq

structure ScoredChunk where
  id : String
  content : String
  source : Option String
  url : Option String
  distance : ℚ
  similarity : ℚ
deriving Repr, DecidableEq

/-- JS `String.prototype.includes`. -/
def strContains (hay needle : String) : Bool := decide (needle.data <:+: hay.data)

/-- Source: `query.toLowerCase().split(/\s+/).filter(w => w.length > 2)`. -/
def queryTerms (query : String) : List String :=
  (Str.splitBy Str.isJsWs (Str.jsToLower query)).filter (fun w => 2 < w.length)

/-- Steps 3 and 3b of `ragPipeline`: base similarity `1 - distance` plus
`0.05` for each query term contained in the lower-cased chunk content. -/
def scoredChunks (query : String) (results : List RawChunk) : List ScoredChunk :=
  let terms := queryTerms query
  results.map (fun r =>
    let contentLower := Str.jsToLower r.content
    let boost : ℚ :=
      ((terms.filter (fun t => strContains contentLower t)).length : ℚ) * (5 / 100)
    ⟨r.id, r.content, r.source, r.url, r.distance, 1 - r.distance + boost⟩)

/-- Source: `.filter((c) => c.similarity >= 0.3)`. -/
def SIMILARITY_THRESHOLD : ℚ := 3 / 10

/-- Filter at the threshold, sort by similarity descending
(`.sort((a, b) => b.similarity - a.similarity)`), keep the top
`rerankTop`. -/
def relevantChunks (query : String) (results : List RawChunk) (rerankTop : Nat) :
    List ScoredChunk :=
  (((scoredChunks query results).filter
      (fun c => SIMILARITY_THRESHOLD ≤ c.similarity)).insertionSort
        (fun a b => b.similarity ≤ a.similarity)).take rerankTop

structure Citation where
  text : String
  source : String
  url : Option String
  relevance : ℚ
deriving Repr, DecidableEq

structure RAGResult where
  answer : String
  sources : List Citation
  confidence : ℚ
  suggestedFollowups : List String
  keyTakeaways : List String
deriving Repr, DecidableEq

/-- The grounding decision and result assembly of `ragPipeline`: `none`
when the vector store returned nothing or no chunk survives the filter;
otherwise citations are built from exactly the surviving chunks
(`relevance := c.similarity`) and
`confidence = min(avg similarity + 0.1, 1.0)`. -/
def ragPipeline (query : String) (results : List RawChunk) (rerankTop : Nat)
    (answerText : String) (followups takeaways : List String) : Option RAGResult :=
  if results.isEmpty then none
  else
    let relevant := relevantChunks query results rerankTop
    if relevant.isEmpty then none
    else
      let citations := relevant.map (fun c =>
        { text := c.content.take 150 ++ "...", source := c.source.getD "Unknown",
          url := c.url, relevance := c.similarity : Citation })
      let avgSimilarity :=
        (relevant.foldl (fun sum c => sum + c.similarity) 0) / (relevant.length : ℚ)
      let confidence := min (avgSimilarity + 1 / 10) 1
      some { answer := answerText, sources := citations, confidence := confidence,
             suggestedFollowups := followups, keyTakeaways := takeaways }

/-- Source: `llmOnlyAnswer` — no citations, fixed confidence `0.5`. -/
def llmOnlyAnswer (answerText : String) (followups takeaways : List String) :
    RAGResult :=
  { answer := answerText, sources := [], confidence := 1 / 2,
    suggestedFollowups := followups, keyTakeaways := takeaways }

/-- The `handle` dispatch for an ask: the RAG pipeline result when grounded,
otherwise the LLM-only fallback (also reached when the pipeline throws). -/
def handleAsk (query : String) (results : List RawChunk) (rerankTop : Nat)
    (ragAnswer : String) (ragF ragT : List String)
    (llmAnswer : String) (llmF llmT : List String) : RAGResult :=
  match ragPipeline query results rerankTop ragAnswer ragF ragT with
  | some r => r
  | none => llmOnlyAnswer llmAnswer llmF llmT

end RAG

/-! ## Output parser (src/mcp/modules/rag.ts, `parseJSON`, and
src/utils/formatters.ts / sanitize helpers)

`parseJSON` strips the outermost code fence, then tries four recovery
strategies in order — direct `JSON.parse`, the first-to-last brace span,
parse-from-the-first-brace-line, and a regex extraction of the `answer`
field — and finally degrades to the cleaned raw text.  Each strategy runs
inside `try { } catch { }`, so a strategy that throws is `none` here.
Strings are processed as `List Char`; regexes are translated into the
deterministic scans they denote (greediness and backtracking are resolved
by hand and noted at each definition). -/

namespace Parser

/-- The backquote character (code 96). -/
def backtick : Char := Char.ofNat 96

/-- Opening curly brace (code 123). -/
def lbrace : Char := Char.ofNat 123

/-- Closing curly brace (code 125). -/
def rbrace : Char := Char.ofNat 125

export Str (isJsWs jsTrimList jsTrim)

def fenceChars : List Char := [backtick, backtick, backtick]

/-- Consume the opening fence and the optional `json`/`JSON` tag. -/
def stripFenceHead (l : List Char) : Option (List Char) :=
  if fenceChars.isPrefixOf l then
    let r := l.drop 3
    if ("json".data).isPrefixOf r then some (r.drop 4)
    else if ("JSON".data).isPrefixOf r then some (r.drop 4)
    else some r
  else none

def countNewlines (l : List Char) : Nat := (l.filter (fun c => c = '\n')).length

/-- The anchored greedy fence regex of `parseJSON`:
`^<fence>(?:json|JSON)?\s*\n([\s\S]*)\n\s*<fence>\s*$`.
It matches iff the text starts with the fence and optional tag, ends
(after trailing whitespace) with the fence, and a newline exists in the
whitespace run after the tag and another one in the whitespace run before
the closing fence (two distinct newlines when the middle is all
whitespace).  The source trims the capture, and the trimmed capture does
not depend on which newlines the backtracking engine picks, so the middle
is returned trimmed. -/
def matchOuterFence (l : List Char) : Option (List Char) :=
  match stripFenceHead l with
  | none => none
  | some r1 =>
      let r := r1.reverse.dropWhile isJsWs
      if fenceChars.isPrefixOf r then
        let m := (r.drop 3).reverse
        if m.all isJsWs then
          if 2 ≤ countNewlines m then some (jsTrimList m) else none
        else
          if (m.takeWhile isJsWs).any (fun c => c = '\n') ∧
             (m.reverse.takeWhile isJsWs).any (fun c => c = '\n') then
            some (jsTrimList m)
          else none
      else none

/-- The stray-fence head replacement
`.replace(/^<fence>(?:json|JSON)?\s*\n?/, '')`: the greedy `\s*` consumes
the whole whitespace run and the optional newline then matches nothing. -/
def stripStrayHead (l : List Char) : List Char :=
  match stripFenceHead l with
  | some r => r.dropWhile isJsWs
  | none => l

/-- The stray-fence tail replacement `.replace(/\n?\s*<fence>\s*$/, '')`:
with the end anchor the fence must sit before the trailing whitespace run,
and the leftmost match start is the beginning of the whitespace run before
the fence. -/
def stripStrayTail (l : List Char) : List Char :=
  let r := l.reverse.dropWhile isJsWs
  if fenceChars.isPrefixOf r then
    ((r.drop 3).dropWhile isJsWs).reverse
  else l

/-- The prologue of `parseJSON`: trim, then either the full outer-fence
match (capture trimmed) or the two boundary-only replacements followed by
a trim. -/
def cleanFences (raw : String) : String :=
  let cleaned := jsTrimList raw.data
  match matchOuterFence cleaned with
  | some body => ⟨body⟩
  | none => ⟨jsTrimList (stripStrayTail (stripStrayHead cleaned))⟩

/-! ### A model of `JSON.parse` -/

inductive Json where
  | null
  | bool (b : Bool)
  | num (q : ℚ)
  | str (s : String)
  | arr (elems : List Json)
  | obj (fields : List (String × Json))
deriving Repr

/-- JS truthiness of a parsed JSON value. -/
def Json.truthy : Json → Bool
  | .null => false
  | .bool b => b
  | .num q => ¬ q = 0
  | .str s => ¬ s = ""
  | .arr _ => true
  | .obj _ => true

/-- Property read on a parsed value: objects look up the field (the last
occurrence wins for duplicate keys, as in `JSON.parse`); on every other
value the property is `undefined` (`none`). -/
def Json.getField : Json → String → Option Json
  | .obj fields, name =>
      ((fields.filter (fun f => f.1 = name)).getLast?).map Prod.snd
  | _, _ => none

/-- Whitespace accepted between JSON tokens (RFC 8259). -/
def isJsonWs (c : Char) : Bool := c = ' ' ∨ c = '\t' ∨ c = '\n' ∨ c = '\r'

def skipJsonWs (l : List Char) : List Char := l.dropWhile isJsonWs

def hexVal (c : Char) : Option Nat :=
  if c.isDigit then some (c.toNat - 48)
  else if 'a' ≤ c ∧ c ≤ 'f' then some (c.toNat - 87)
  else if 'A' ≤ c ∧ c ≤ 'F' then some (c.toNat - 55)
  else none

def escChar (e : Char) : Option Char :=
  if e = '"' then some '"'
  else if e = '\\' then some '\\'
  else if e = '/' then some '/'
  else if e = 'b' then some (Char.ofNat 8)
  else if e = 'f' then some (Char.ofNat 12)
  else if e = 'n' then some '\n'
  else if e = 'r' then some '\r'
  else if e = 't' then some '\t'
  else none

/-- JSON string body after the opening quote.  `\uXXXX` produces the code
unit directly (`Char.ofNat`); unescaped control characters are rejected as
`JSON.parse` does. -/
def parseStringBody : List Char → Option (List Char × List Char)
  | [] => none
  | c :: rest =>
      if c = '"' then some ([], rest)
      else if c = '\\' then
        match rest with
        | e :: rest2 =>
            if e = 'u' then
              match rest2 with
              | h1 :: h2 :: h3 :: h4 :: rest3 =>
                  match hexVal h1, hexVal h2, hexVal h3, hexVal h4 with
                  | some a, some b, some c2, some d =>
                      (parseStringBody rest3).map (fun p =>
                        (Char.ofNat (((a * 16 + b) * 16 + c2) * 16 + d) :: p.1, p.2))
                  | _, _, _, _ => none
              | _ => none
            else
              match escChar e with
              | some ch => (parseStringBody rest2).map (fun p => (ch :: p.1, p.2))
              | none => none
        | [] => none
      else if c.toNat < 32 then none
      else (parseStringBody rest).map (fun p => (c :: p.1, p.2))

def digitsToNat (l : List Char) : Nat := l.foldl (fun n c => 10 * n + (c.toNat - 48)) 0

/-- JSON number grammar: `-? (0 | [1-9][0-9]*) frac? exp?`. -/
def parseNumber (l : List Char) : Option (ℚ × List Char) :=
  let p := match l with
    | '-' :: r => (true, r)
    | _ => (false, l)
  let neg := p.1
  let r1 := p.2
  let intDigits := r1.takeWhile Char.isDigit
  if intDigits.isEmpty then none
  else if 2 ≤ intDigits.length ∧ intDigits.head? = some '0' then none
  else
    let r2 := r1.drop intDigits.length
    let base : ℚ := (digitsToNat intDigits : ℚ)
    let fracStep : Option (ℚ × List Char) :=
      match r2 with
      | '.' :: fr =>
          let fd := fr.takeWhile Char.isDigit
          if fd.isEmpty then none
          else some (base + (digitsToNat fd : ℚ) / ((10 : ℚ) ^ fd.length),
                     fr.drop fd.length)
      | _ => some (base, r2)
    match fracStep with
    | none => none
    | some (v, r3) =>
        let expStep : Option (ℚ × List Char) :=
          match r3 with
          | e :: er =>
              if e = 'e' ∨ e = 'E' then
                let q := match er with
                  | '+' :: t => (false, t)
                  | '-' :: t => (true, t)
                  | _ => (false, er)
                let ed := q.2.takeWhile Char.isDigit
                if ed.isEmpty then none
                else
                  let ex : ℤ := if q.1 then -(digitsToNat ed : ℤ) else (digitsToNat ed : ℤ)
                  some (v * (10 : ℚ) ^ ex, q.2.drop ed.length)
              else some (v, r3)
          | [] => some (v, r3)
        expStep.map (fun p2 => (if neg then -p2.1 else p2.1, p2.2))

mutual

/-- Recursive-descent JSON value parser; the fuel bounds nesting depth. -/
def parseVal : Nat → List Char → Option (Json × List Char)
  | 0, _ => none
  | _ + 1, [] => none
  | fuel + 1, c :: rest =>
      if c = '"' then
        (parseStringBody rest).map (fun p => (Json.str ⟨p.1⟩, p.2))
      else if c = '[' then
        match skipJsonWs rest with
        | ']' :: r2 => some (Json.arr [], r2)
        | r2 => (parseItems fuel r2).map (fun p => (Json.arr p.1, p.2))
      else if c = lbrace then
        match skipJsonWs rest with
        | d :: r2 =>
            if d = rbrace then some (Json.obj [], r2)
            else (parseFields fuel (d :: r2)).map (fun p => (Json.obj p.1, p.2))
        | [] => none
      else if ("null".data).isPrefixOf (c :: rest) then
        some (Json.null, (c :: rest).drop 4)
      else if ("true".data).isPrefixOf (c :: rest) then
        some (Json.bool true, (c :: rest).drop 4)
      else if ("false".data).isPrefixOf (c :: rest) then
        some (Json.bool false, (c :: rest).drop 5)
      else
        (parseNumber (c :: rest)).map (fun p => (Json.num p.1, p.2))

/-- Array items after `[` (first item not yet consumed). -/
def parseItems : Nat → List Char → Option (List Json × List Char)
  | 0, _ => none
  | fuel + 1, l =>
      match parseVal fuel (skipJsonWs l) with
      | none => none
      | some (v, r1) =>
          match skipJsonWs r1 with
          | ',' :: r2 =>
              (parseItems fuel r2).map (fun p => (v :: p.1, p.2))
          | ']' :: r2 => some ([v], r2)
          | _ => none

/-- Object members after an opening brace known to be non-empty. -/
def parseFields : Nat → List Char → Option (List (String × Json) × List Char)
  | 0, _ => none
  | fuel + 1, l =>
      match skipJsonWs l with
      | k :: r1 =>
          if k = '"' then
            match parseStringBody r1 with
            | none => none
            | some (keyChars, r2) =>
                match skipJsonWs r2 with
                | ':' :: r3 =>
                    match parseVal fuel (skipJsonWs r3) with
                    | none => none
                    | some (v, r4) =>
                        match skipJsonWs r4 with
                        | ',' :: r5 =>
                            (parseFields fuel r5).map (fun p =>
                              ((⟨keyChars⟩, v) :: p.1, p.2))
                        | d :: r5 =>
                            if d = rbrace then some ([(⟨keyChars⟩, v)], r5)
                            else none
                        | [] => none
                | _ => none
          else none
      | [] => none

end

/-- `JSON.parse`: a single value with only whitespace around it. -/
def jsonParse (s : String) : Option Json :=
  let l := s.data
  match parseVal (2 * l.length + 2) (skipJsonWs l) with
  | some (j, rest) => if (skipJsonWs rest).isEmpty then some j else none
  | none => none

/-! ### `sanitizeAnswer` and `flattenToMarkdown` (src/utils/formatters.ts) -/

/-- Stand-in for JS number-to-string formatting; the exact digits never
matter to the claims proved here. -/
def jsNumToString (q : ℚ) : String := toString q

mutual

/-- Template-literal/`String()` display of a parsed value.  An array joins
its items with commas, where `null` renders as the empty string; a plain
object renders as `[object Object]`. -/
def jsDisplay : Json → String
  | .str s => s
  | .null => "null"
  | .bool b => if b then "true" else "false"
  | .num q => jsNumToString q
  | .arr xs => String.intercalate "," (jsDisplayList xs)
  | .obj _ => "[object Object]"

def jsDisplayList : List Json → List String
  | [] => []
  | .null :: rest => "" :: jsDisplayList rest
  | x :: rest => jsDisplay x :: jsDisplayList rest

end

mutual

/-- Executable size of a parsed value, used as flattening fuel. -/
def Json.size : Json → Nat
  | .arr xs => 1 + Json.sizeList xs
  | .obj fs => 1 + Json.sizeFields fs
  | _ => 1

def Json.sizeList : List Json → Nat
  | [] => 0
  | x :: rest => Json.size x + Json.sizeList rest

def Json.sizeFields : List (String × Json) → Nat
  | [] => 0
  | f :: rest => Json.size f.2 + Json.sizeFields rest

end

/-- Field lookup returning the value only when truthy (`if (rec.name)`). -/
def truthyField (fields : List (String × Json)) (name : String) : Option Json :=
  match ((fields.filter (fun f => f.1 = name)).getLast?).map Prod.snd with
  | some v => if v.truthy then some v else none
  | none => none

/-- The truthy-or chain `item.a || item.b || ...`. -/
def firstTruthy (fields : List (String × Json)) : List String → Option Json
  | [] => none
  | n :: rest =>
      match truthyField fields n with
      | some v => some v
      | none => firstTruthy fields rest

/-- `key.replace(/([A-Z])/g, ' $1').replace(/^./, s => s.toUpperCase())`. -/
def labelOfKey (k : String) : String :=
  let spaced := k.data.flatMap (fun c => if c.isUpper then [' ', c] else [c])
  match spaced with
  | c :: rest => if c = '\n' then ⟨spaced⟩ else ⟨c.toUpper :: rest⟩
  | [] => ""

mutual

/-- Source: `flattenToMarkdown(obj)`.  `none` models a thrown `TypeError`
(reading a property of a `null` entry in `sections`), which the calling
strategy's `try` block turns into a fall-through. -/
def flattenToMarkdown : Nat → Json → Option String
  | 0, _ => none
  | _ + 1, .str s => some s
  | _ + 1, .null => some "null"
  | _ + 1, .bool b => some (if b then "true" else "false")
  | _ + 1, .num q => some (jsNumToString q)
  | fuel + 1, .arr items =>
      (items.mapM (fun it => flattenArrItem fuel it)).map
        (fun parts => String.intercalate "\n\n" parts)
  | fuel + 1, .obj fields =>
      (flattenObjParts fuel fields).map (fun parts => String.intercalate "\n" parts)

/-- One array element: strings become bullets, objects with a truthy
`term`/`name` become a labelled line with optional analogy, other objects
recurse, primitives stringify. -/
def flattenArrItem : Nat → Json → Option String
  | 0, _ => none
  | _ + 1, .str s => some ("• " ++ s)
  | fuel + 1, .obj fields =>
      match firstTruthy fields ["term", "name"] with
      | some labelVal =>
          let desc := match firstTruthy fields ["definition", "description", "explanation"] with
            | some v => jsDisplay v
            | none => ""
          let analogy := match truthyField fields "analogy" with
            | some a => "\n> _💡 " ++ jsDisplay a ++ "_"
            | none => ""
          some ("**" ++ jsDisplay labelVal ++ ":** " ++ desc ++ analogy)
      | none => flattenToMarkdown fuel (.obj fields)
  | fuel + 1, .arr xs => flattenToMarkdown fuel (.arr xs)
  | _ + 1, other => some (jsDisplay other)

/-- The object branch: optional `## title` part, then either the
`sections` walk (when `sections` is a truthy array), nothing more (truthy
non-array `sections`), or the generic key/value fallback. -/
def flattenObjParts : Nat → List (String × Json) → Option (List String)
  | 0, _ => none
  | fuel + 1, fields =>
      let titlePart := match truthyField fields "title" with
        | some t => ["## " ++ jsDisplay t]
        | none => []
      match truthyField fields "sections" with
      | some (.arr secs) =>
          (secs.mapM (fun sec => flattenSection fuel sec)).map
            (fun ps => titlePart ++ ps.flatten)
      | some _ => some titlePart
      | none => (flattenKVs fuel fields).map (fun ps => titlePart ++ ps)

/-- One entry of `sections`: a `null` entry throws (reading `.header`),
objects contribute their truthy `header`/`content`/`text` parts, and other
values contribute nothing (their properties are `undefined`). -/
def flattenSection : Nat → Json → Option (List String)
  | 0, _ => none
  | _ + 1, .null => none
  | fuel + 1, .obj f =>
      let headerPart := match truthyField f "header" with
        | some h => ["\n**" ++ jsDisplay h ++ "**"]
        | none => []
      let contentPart : Option (List String) := match truthyField f "content" with
        | some cv => (flattenToMarkdown fuel cv).map (fun s => [s])
        | none => some []
      let textPart := match truthyField f "text" with
        | some tv => [jsDisplay tv]
        | none => []
      contentPart.map (fun cp => headerPart ++ cp ++ textPart)
  | _ + 1, _ => some []

/-- The generic key/value fallback: skip `title`, render string values
with a spaced-and-capitalized label, arrays with a label line followed by
their flattening, objects by recursion; numbers, booleans and `null` are
skipped. -/
def flattenKVs : Nat → List (String × Json) → Option (List String)
  | 0, _ => none
  | _ + 1, [] => some []
  | fuel + 1, (k, v) :: rest =>
      let this : Option (List String) :=
        if k = "title" then some []
        else match v with
          | .str s => some ["**" ++ labelOfKey k ++ ":** " ++ s]
          | .arr xs =>
              (flattenToMarkdown fuel (.arr xs)).map
                (fun s => ["\n**" ++ labelOfKey k ++ ":**", s])
          | .obj f => (flattenToMarkdown fuel (.obj f)).map (fun s => [s])
          | _ => some []
      match this, flattenKVs fuel rest with
      | some a, some b => some (a ++ b)
      | _, _ => none

end

/-! ### `sanitizeAnswer` on strings: wrapper strip, unescapes, blank-line
collapse, trim -/

/-- Does `l` start with `\s*` followed by `,` or the closing brace
(the `"\s*[,}]` tail of the wrapper and answer-extraction regexes)? -/
def goodTail (l : List Char) : Bool :=
  match l.dropWhile isJsWs with
  | c :: _ => c = ',' ∨ c = rbrace
  | [] => false

/-- Longest prefix `p` such that the input is `p ++ quote ++ t` with
`goodTail t` — the greedy capture of `"([\s\S]*)"\s*[,}]`. -/
def greedyCapture : List Char → Option (List Char)
  | [] => none
  | c :: rest =>
      match greedyCapture rest with
      | some cap => some (c :: cap)
      | none => if c = '"' ∧ goodTail rest then some [] else none

def answerLit : List Char := '"' :: ("answer".data ++ ['"'])

/-- The wrapper strip
`/^\s*\{\s*"answer"\s*:\s*"([\s\S]*)"\s*[,}]/` with a greedy capture:
on a match the text is replaced by the captured group. -/
def stripAnswerWrapper (l : List Char) : List Char :=
  match l.dropWhile isJsWs with
  | c :: r1 =>
      if c = lbrace then
        let r2 := r1.dropWhile isJsWs
        if answerLit.isPrefixOf r2 then
          match (r2.drop answerLit.length).dropWhile isJsWs with
          | d :: r4 =>
              if d = ':' then
                match r4.dropWhile isJsWs with
                | q :: r6 =>
                    if q = '"' then
                      match greedyCapture r6 with
                      | some cap => cap
                      | none => l
                    else l
                | [] => l
              else l
          | [] => l
        else l
      else l
  | [] => l

/-- `.replace(/\\n/g, '\n')` — left-to-right, non-overlapping. -/
def replEscapedNewlines : List Char → List Char
  | '\\' :: 'n' :: rest => '\n' :: replEscapedNewlines rest
  | c :: rest => c :: replEscapedNewlines rest
  | [] => []

/-- `.replace(/\\"/g, '"')`. -/
def replEscapedQuotes : List Char → List Char
  | '\\' :: '"' :: rest => '"' :: replEscapedQuotes rest
  | c :: rest => c :: replEscapedQuotes rest
  | [] => []

/-- `.replace(/\\\\/g, '\\')`. -/
def replEscapedBackslashes : List Char → List Char
  | '\\' :: '\\' :: rest => '\\' :: replEscapedBackslashes rest
  | c :: rest => c :: replEscapedBackslashes rest
  | [] => []

def emitNewlines (n : Nat) : List Char :=
  if 3 ≤ n then ['\n', '\n'] else List.replicate n '\n'

/-- `.replace(/\n{3,}/g, '\n\n')`: runs of three or more newlines collapse
to two. -/
def collapseAux : List Char → Nat → List Char
  | [], n => emitNewlines n
  | c :: rest, n =>
      if c = '\n' then collapseAux rest (n + 1)
      else emitNewlines n ++ (c :: collapseAux rest 0)

def collapseBlankLines (l : List Char) : List Char := collapseAux l 0

/-- The string path of `sanitizeAnswer` (field = `'answer'`, the only
value `parseJSON` uses): wrapper strip, the three unescapes, blank-line
collapse, trim. -/
def sanitizeStr (input : String) : String :=
  ⟨jsTrimList (collapseBlankLines (replEscapedBackslashes (replEscapedQuotes
      (replEscapedNewlines (stripAnswerWrapper input.data)))))⟩

/-- Source: `sanitizeAnswer(input)` — objects and arrays are flattened to
markdown (no string pipeline); everything else is stringified and run
through the string pipeline.  `none` models a thrown `TypeError` from the
flattening. -/
def sanitizeAnswer (j : Json) : Option String :=
  match j with
  | .arr xs => flattenToMarkdown (3 * Json.size (.arr xs) + 3) (.arr xs)
  | .obj fs => flattenToMarkdown (3 * Json.size (.obj fs) + 3) (.obj fs)
  | .str s => some (sanitizeStr s)
  | .null => some (sanitizeStr "null")
  | .bool b => some (sanitizeStr (if b then "true" else "false"))
  | .num q => some (sanitizeStr (jsNumToString q))

/-! ### The four recovery strategies and `parseJSON` -/

/-- The value flowing out of `parseJSON` towards the RAG pipeline: the
`answer`, `suggestedFollowups` and `keyTakeaways` properties of whatever
object a strategy produced (absent properties are `none`). -/
structure ParsedResp where
  answer : Option Json
  suggestedFollowups : Option Json
  keyTakeaways : Option Json
deriving Repr

/-- Strategy 1 epilogue: `if (parsed.answer) parsed.answer =
sanitizeAnswer(parsed.answer); return parsed` — reading `.answer` of a
parsed `null` throws (caught by the strategy), any other parse is returned
as is, with a truthy answer sanitized. -/
def convertParsed (j : Json) : Option ParsedResp :=
  match j with
  | .null => none
  | _ =>
      match j.getField "answer" with
      | some a =>
          if a.truthy then
            (sanitizeAnswer a).map (fun s =>
              ⟨some (.str s), j.getField "suggestedFollowups", j.getField "keyTakeaways"⟩)
          else some ⟨some a, j.getField "suggestedFollowups", j.getField "keyTakeaways"⟩
      | none => some ⟨none, j.getField "suggestedFollowups", j.getField "keyTakeaways"⟩

/-- Strategies 2 and 3 only return when `parsed.answer` is truthy;
otherwise execution falls through to the next strategy. -/
def requireTruthyAnswer (j : Json) : Option ParsedResp :=
  match j with
  | .null => none
  | _ =>
      match j.getField "answer" with
      | some a =>
          if a.truthy then
            (sanitizeAnswer a).map (fun s =>
              ⟨some (.str s), j.getField "suggestedFollowups", j.getField "keyTakeaways"⟩)
          else none
      | none => none

/-- Attempt 1: direct `JSON.parse` of the cleaned text. -/
def attempt1 (cleaned : String) : Option ParsedResp :=
  (jsonParse cleaned).bind convertParsed

/-- The greedy span `/\{[\s\S]*\}/`: from the first opening brace to the
last closing brace after it. -/
def braceSpan (l : List Char) : Option (List Char) :=
  match l.dropWhile (fun c => ¬ c = lbrace) with
  | [] => none
  | c :: rest =>
      let r := (c :: rest).reverse.dropWhile (fun c2 => ¬ c2 = rbrace)
      if r.isEmpty then none else some r.reverse

/-- Attempt 2: parse the brace-delimited span of mixed content. -/
def attempt2 (cleaned : String) : Option ParsedResp :=
  (braceSpan cleaned.data).bind (fun span => (jsonParse ⟨span⟩).bind requireTruthyAnswer)

/-- Attempt 3: find the first line whose `trimStart` begins with a brace
and parse from that line onward. -/
def attempt3 (cleaned : String) : Option ParsedResp :=
  let lines := Str.splitBy (fun c => c = '\n') cleaned
  match lines.findIdx? (fun ln =>
      match ln.data.dropWhile isJsWs with
      | c :: _ => c = lbrace
      | [] => false) with
  | none => none
  | some idx =>
      (jsonParse (String.intercalate "\n" (lines.drop idx))).bind requireTruthyAnswer

/-- The lazy escaped-string span `((?:[^"\\]|\\.)*?)` of the answer
regex: collected raw (escapes preserved) up to the first unescaped quote;
a backslash before a newline (or at the end) kills the candidate since
`\\.` does not match across lines. -/
def lazyEscapedSpan : List Char → Option (List Char × List Char)
  | [] => none
  | '"' :: rest => some ([], rest)
  | '\\' :: c :: rest =>
      if c = '\n' then none
      else (lazyEscapedSpan rest).map (fun p => ('\\' :: c :: p.1, p.2))
  | '\\' :: [] => none
  | c :: rest => (lazyEscapedSpan rest).map (fun p => (c :: p.1, p.2))

/-- Scan for `/"answer"\s*:\s*"((?:[^"\\]|\\.)*?)"\s*[,}]/`: at each
occurrence of the `"answer"` literal try the tail; on failure the engine
resumes at the next occurrence. -/
def findAnswerMatch : List Char → Option (List Char)
  | [] => none
  | c0 :: rest =>
      (if answerLit.isPrefixOf (c0 :: rest) then
        match ((c0 :: rest).drop answerLit.length).dropWhile isJsWs with
        | ':' :: r2 =>
            match r2.dropWhile isJsWs with
            | '"' :: r3 =>
                match lazyEscapedSpan r3 with
                | some (cap, rest2) => if goodTail rest2 then some cap else none
                | none => none
            | _ => none
        | _ => none
      else none).orElse (fun _ => findAnswerMatch rest)

def quotedLit (name : String) : List Char := '"' :: (name.data ++ ['"'])

/-- The lazy bracket capture `\[([\s\S]*?)\]`: content up to the first
closing bracket. -/
def lazyToBracket : List Char → Option (List Char)
  | [] => none
  | ']' :: _ => some []
  | c :: rest => (lazyToBracket rest).map (fun p => c :: p)

/-- Scan for `/"<name>"\s*:\s*\[([\s\S]*?)\]/`. -/
def findListField (lit : List Char) : List Char → Option (List Char)
  | [] => none
  | c0 :: rest =>
      (if lit.isPrefixOf (c0 :: rest) then
        match ((c0 :: rest).drop lit.length).dropWhile isJsWs with
        | ':' :: r2 =>
            match r2.dropWhile isJsWs with
            | '[' :: r3 => lazyToBracket r3
            | _ => none
        | _ => none
      else none).orElse (fun _ => findListField lit rest)

/-- `inner.match(/"([^"]+)"/g)` followed by stripping the quotes: the
global scan collects every maximal nonempty quote-delimited span; an
immediately-following quote re-opens a candidate (the engine advances one
character past a failed empty match). -/
def scanQuotedAux : List Char → Option (List Char) → List String
  | [], _ => []
  | c :: rest, none =>
      if c = '"' then scanQuotedAux rest (some []) else scanQuotedAux rest none
  | c :: rest, some acc =>
      if c = '"' then
        if acc.isEmpty then scanQuotedAux rest (some [])
        else (⟨acc.reverse⟩ : String) :: scanQuotedAux rest none
      else scanQuotedAux rest (some (c :: acc))

def scanQuoted (l : List Char) : List String := scanQuotedAux l none

/-- Attempt 4: regex-extract the `answer` field value, plus whatever
string items the two list fields yield (`?? []` on both). -/
def attempt4 (cleaned : String) : Option ParsedResp :=
  match findAnswerMatch cleaned.data with
  | none => none
  | some cap =>
      let answer := sanitizeStr ⟨cap⟩
      let followups := match findListField (quotedLit "suggestedFollowups") cleaned.data with
        | some inner => scanQuoted inner
        | none => []
      let takeaways := match findListField (quotedLit "keyTakeaways") cleaned.data with
        | some inner => scanQuoted inner
        | none => []
      some ⟨some (.str answer), some (.arr (followups.map Json.str)),
            some (.arr (takeaways.map Json.str))⟩

/-- Source: `parseJSON(raw)` — fence cleanup, the four strategies in
order, and the raw-text fallback
`{ answer: sanitizeAnswer(cleaned), suggestedFollowups: [], keyTakeaways: [] }`. -/
def parseJSON (raw : String) : ParsedResp :=
  let cleaned := cleanFences raw
  match attempt1 cleaned with
  | some r => r
  | none =>
    match attempt2 cleaned with
    | some r => r
    | none =>
      match attempt3 cleaned with
      | some r => r
      | none =>
        match attempt4 cleaned with
        | some r => r
        | none =>
            ⟨some (.str (sanitizeStr cleaned)), some (.arr []), some (.arr [])⟩

end Parser

/-! ## Concrete instances used by witnesses and counterexamples -/

namespace AI

/-- A startup provider table with all six slots configured (mirrors the
test configuration in tests/integration/fallback.test.ts). -/
def initialProviders : ProviderSlot → ProviderState
  | .gemini1 => buildProvider "key1" "gemini-3-flash" "Gemini 3 Flash"
  | .gemini2 => buildProvider "key2" "gemini-2.5-flash" "Gemini 2.5 Flash"
  | .gemini3 => buildProvider "key3" "gemini-2.5-flash-lite" "Gemini 2.5 Flash Lite A"
  | .gemini4 => buildProvider "key4" "gemini-2.5-flash-lite" "Gemini 2.5 Flash Lite B"
  | .gemini5 => buildProvider "key5" "gemini-2.5-flash-lite" "Gemini 2.5 Flash Lite C"
  | .gemini6 => buildProvider "key6" "gemini-2.5-flash-lite" "Gemini 2.5 Flash Lite D"

/-- A first call in which gemini1 answers 404 (model not found) and
gemini2 succeeds. -/
def outcome404 : ProviderSlot → AttemptOutcome := fun k =>
  if k = .gemini1 then .failure (some 404) "Not Found" else .response (some "ok")

/-- The provider table after that first call: gemini1 carries
`isActive = false`. -/
def provsAfter404 : ProviderSlot → ProviderState :=
  (generateCompletion (PROVIDER_PRIORITY initialProviders) 1000 outcome404
    initialProviders Queue.initState).1.2.provs

/-- Every provider rate-limited: the soonest to recover is gemini2
(`rateLimitedUntil = 50`). -/
def coolingProviders : ProviderSlot → ProviderState := fun k =>
  { initialProviders k with rateLimitedUntil :=
      match k with
      | .gemini1 => 100
      | .gemini2 => 50
      | .gemini3 => 70
      | .gemini4 => 80
      | .gemini5 => 90
      | .gemini6 => 95 }

end AI

namespace Cache

/-- 201 setCache calls on distinct keys, the first of which is the empty
string.  Once the cache reaches capacity with `""` as its oldest key, the
falsy-key guard `if (lruKey)` skips eviction and the cache grows past
`MAX_ENTRIES`. -/
def c5CexOps : List COp :=
  COp.set "" "v" 1000000 0 ::
  ((List.range 199).map (fun i =>
    COp.set ((Char.ofNat (48 + i)).toString) "v" 1000000 0)) ++
  [COp.set "ZZ" "v" 1000000 0]

end Cache

/-! ## Helper lemmas -/

namespace Queue

theorem inv_init (max : Nat) : Inv max initState := by
  simp [Inv, initState]

theorem inv_step (max : Nat) (s : QueueState) (e : Event) (h : Inv max s) :
    Inv max (step max s e) := by
  obtain ⟨h1, h2, h3⟩ := h
  cases e with
  | acquire =>
      by_cases hr : s.running < max
      · exact ⟨by simp [step, hr, h1], by simp [step, hr]; omega, by simp [step, hr, h3]⟩
      · refine ⟨by simp [step, hr, h1], by simp [step, hr, h2], ?_⟩
        simp [step, hr, ← List.append_assoc, h3]
  | release =>
      cases hw : s.waiting with
      | nil =>
          exact ⟨by simp [step, hw, h1], by simp [step, hw]; omega,
                 by simpa [step, hw] using h3⟩
      | cons w rest =>
          refine ⟨by simp [step, hw, h1], by simp [step, hw, h2], ?_⟩
          simp only [step, hw]
          rw [← h3, hw]
          simp

theorem inv_run (max : Nat) (s : QueueState) (es : List Event) (h : Inv max s) :
    Inv max (run max s es) := by
  induction es generalizing s with
  | nil => exact h
  | cons e es ih => exact ih _ (inv_step max s e h)

end Queue

namespace Cache

theorem key_mem_keys (s : Slot) (c : CacheMap) (h : s ∈ c) : s.key ∈ keys c := by
  simp only [keys, List.mem_map]
  exact ⟨s, h, rfl⟩

theorem eraseKey_sublist (key : String) (c : CacheMap) :
    (eraseKey key c).Sublist c := by
  induction c with
  | nil => simp [eraseKey]
  | cons s rest ih =>
      by_cases h : s.key = key
      · simp only [eraseKey, if_pos h]
        exact List.sublist_cons_self s rest
      · simpa [eraseKey, h] using ih.cons₂ s

theorem keys_eraseKey_not_mem (key : String) (c : CacheMap)
    (h : (keys c).Nodup) : key ∉ keys (eraseKey key c) := by
  induction c with
  | nil => simp [eraseKey, keys]
  | cons s rest ih =>
      simp only [keys, List.map_cons, List.nodup_cons] at h
      by_cases hk : s.key = key
      · simp only [eraseKey, if_pos hk]
        rw [← hk]
        exact fun hmem => h.1 hmem
      · simp only [eraseKey, if_neg hk, keys, List.map_cons, List.mem_cons]
        rintro (h1 | h2)
        · exact hk h1.symm
        · exact ih h.2 h2

theorem length_eraseKey_of_mem (key : String) (c : CacheMap)
    (h : key ∈ keys c) : (eraseKey key c).length + 1 = c.length := by
  induction c with
  | nil => simp [keys] at h
  | cons s rest ih =>
      by_cases hk : s.key = key
      · simp [eraseKey, hk]
      · have : key ∈ keys rest := by
          rcases (by simpa [keys] using h) with h1 | h2
          · exact absurd h1.symm hk
          · simpa [keys] using h2
        simp [eraseKey, hk, ih this]

theorem keys_mapSet_of_mem (key value : String) (e cl : Nat) (c : CacheMap)
    (h : key ∈ keys c) :
    keys (mapSet key value e cl c) = keys c ∧
    accessTimes (mapSet key value e cl c) = accessTimes c ∧
    (mapSet key value e cl c).length = c.length := by
  induction c with
  | nil => simp [keys] at h
  | cons s rest ih =>
      by_cases hk : s.key = key
      · simp [mapSet, hk, keys, accessTimes]
      · have : key ∈ keys rest := by
          rcases (by simpa [keys] using h) with h1 | h2
          · exact absurd h1.symm hk
          · simpa [keys] using h2
        obtain ⟨k1, k2, k3⟩ := ih this
        simp [mapSet, hk, keys, accessTimes, k1, k2, k3]
        exact ⟨by simpa [keys] using k1, by simpa [accessTimes] using k2⟩

theorem mapSet_of_not_mem (key value : String) (e cl : Nat) (c : CacheMap)
    (h : key ∉ keys c) :
    mapSet key value e cl c = c ++ [⟨key, value, e, cl⟩] := by
  induction c with
  | nil => simp [mapSet]
  | cons s rest ih =>
      have hk : s.key ≠ key := by
        intro he
        exact h (by simp [keys, he])
      have : key ∉ keys rest := fun hm => h (by simp [keys] at hm ⊢; exact Or.inr hm)
      simp [mapSet, hk, ih this]

theorem inv_nil (clock : Nat) : Inv [] clock :=
  ⟨by simp [keys], by simp [accessTimes], by simp [accessTimes], by simp [keys],
   by simp [MAX_ENTRIES]⟩

theorem inv_mono (c : CacheMap) (clock clock' : Nat) (h : Inv c clock)
    (hc : clock ≤ clock') : Inv c clock' :=
  ⟨h.nodup, h.sorted, fun t ht => lt_of_lt_of_le (h.below t ht) hc,
   h.noEmptyKey, h.size⟩

theorem inv_sublist (c' c : CacheMap) (clock : Nat) (hs : c'.Sublist c)
    (h : Inv c clock) : Inv c' clock := by
  refine ⟨?_, ?_, ?_, ?_, ?_⟩
  · exact List.Nodup.sublist (hs.map Slot.key) h.nodup
  · exact List.Pairwise.sublist (hs.map Slot.lastAccess) h.sorted
  · exact fun t ht => h.below t ((hs.map Slot.lastAccess).subset ht)
  · exact fun k hk => h.noEmptyKey k ((hs.map Slot.key).subset hk)
  · exact le_trans hs.length_le h.size

theorem inv_getCached (key : String) (now clock : Nat) (c : CacheMap)
    (h : Inv c clock) : Inv (getCached key now clock c).2 (clock + 1) := by
  match hf : c.find? (fun s => s.key = key) with
  | none =>
      simp only [getCached, hf]
      exact inv_mono c clock (clock + 1) h (Nat.le_succ clock)
  | some s =>
      have hmem : s ∈ c := List.mem_of_find?_eq_some hf
      have hkey : s.key = key := by simpa using List.find?_some hf
      have hkmem : key ∈ keys c := hkey ▸ key_mem_keys s c hmem
      have herase := inv_sublist _ c clock (eraseKey_sublist key c) h
      by_cases hexp : s.expiresAt < now
      · simp only [getCached, hf, if_pos hexp]
        exact inv_mono _ clock (clock + 1) herase (Nat.le_succ clock)
      · simp only [getCached, hf, if_neg hexp]
        refine ⟨?_, ?_, ?_, ?_, ?_⟩
        · simp only [keys, List.map_append, List.map_cons, List.map_nil]
          rw [List.nodup_append]
          refine ⟨herase.nodup, List.nodup_singleton _, ?_⟩
          intro a ha hb
          simp only [List.mem_singleton] at hb
          subst hb
          exact keys_eraseKey_not_mem key c h.nodup (by simpa [keys, hkey] using ha)
        · simp only [accessTimes, List.map_append, List.map_cons, List.map_nil]
          rw [List.pairwise_append]
          refine ⟨herase.sorted, List.pairwise_singleton _ _, ?_⟩
          intro a ha b hb
          simp only [List.mem_singleton] at hb
          subst hb
          exact herase.below a (by simpa [accessTimes] using ha)
        · intro t ht
          simp only [accessTimes, List.map_append, List.map_cons, List.map_nil,
            List.mem_append, List.mem_singleton] at ht
          rcases ht with ht | ht
          · exact lt_trans (herase.below t (by simpa [accessTimes] using ht))
              (Nat.lt_succ_self _)
          · subst ht
            exact Nat.lt_succ_self _
        · intro k hk
          simp only [keys, List.map_append, List.map_cons, List.map_nil,
            List.mem_append, List.mem_singleton] at hk
          rcases hk with hk | hk
          · exact herase.noEmptyKey k (by simpa [keys] using hk)
          · subst hk
            exact hkey ▸ h.noEmptyKey s.key (key_mem_keys s c hmem)
        · have h1 := length_eraseKey_of_mem key c hkmem
          have h2 : (eraseKey key c ++ [{ s with lastAccess := clock }]).length =
              (eraseKey key c).length + 1 := by simp
          rw [h2, h1]
          exact h.size

theorem inv_setCache (key value : String) (ttlMs now clock : Nat) (c : CacheMap)
    (h : Inv c clock) (hk : key ≠ "") :
    Inv (setCache key value ttlMs now clock c) (clock + 1) := by
  have hstep : ∀ c1 : CacheMap, Inv c1 clock → c1.length + 1 ≤ MAX_ENTRIES →
      Inv (mapSet key value (now + ttlMs) clock c1) (clock + 1) := by
    intro c1 h1 hlen
    by_cases hmem : key ∈ keys c1
    · obtain ⟨k1, k2, k3⟩ := keys_mapSet_of_mem key value (now + ttlMs) clock c1 hmem
      exact ⟨k1 ▸ h1.nodup, k2 ▸ h1.sorted,
        fun t ht => lt_trans (h1.below t (k2 ▸ ht)) (Nat.lt_succ_self clock),
        fun k hkk => h1.noEmptyKey k (k1 ▸ hkk), k3 ▸ h1.size⟩
    · rw [mapSet_of_not_mem key value (now + ttlMs) clock c1 hmem]
      refine ⟨?_, ?_, ?_, ?_, ?_⟩
      · simp only [keys, List.map_append, List.map_cons, List.map_nil]
        rw [List.nodup_append]
        refine ⟨h1.nodup, List.nodup_singleton _, ?_⟩
        intro a ha hb
        simp only [List.mem_singleton] at hb
        subst hb
        exact hmem (by simpa [keys] using ha)
      · simp only [accessTimes, List.map_append, List.map_cons, List.map_nil]
        rw [List.pairwise_append]
        refine ⟨h1.sorted, List.pairwise_singleton _ _, ?_⟩
        intro a ha b hb
        simp only [List.mem_singleton] at hb
        subst hb
        exact h1.below a (by simpa [accessTimes] using ha)
      · intro t ht
        simp only [accessTimes, List.map_append, List.map_cons, List.map_nil,
          List.mem_append, List.mem_singleton] at ht
        rcases ht with ht | ht
        · exact lt_trans (h1.below t (by simpa [accessTimes] using ht))
            (Nat.lt_succ_self _)
        · subst ht
          exact Nat.lt_succ_self _
      · intro k hkk
        simp only [keys, List.map_append, List.map_cons, List.map_nil,
          List.mem_append, List.mem_singleton] at hkk
        rcases hkk with hkk | hkk
        · exact h1.noEmptyKey k (by simpa [keys] using hkk)
        · subst hkk
          exact hk
      · simp only [List.length_append, List.length_cons, List.length_nil]
        omega
  by_cases hcap : MAX_ENTRIES ≤ c.length
  · match hc : c with
    | [] => simp [MAX_ENTRIES] at hcap
    | f :: rest =>
        have hfk : f.key ≠ "" := h.noEmptyKey f.key (by simp [keys])
        have hrest : Inv rest clock :=
          inv_sublist rest (f :: rest) clock (List.sublist_cons_self f rest) h
        have hsz := h.size
        simp only [setCache, if_pos hcap, if_neg hfk]
        refine hstep rest hrest ?_
        simp only [List.length_cons] at hsz
        omega
  · simp only [setCache, if_neg hcap]
    refine hstep c h ?_
    omega

theorem inv_sweep (now clock : Nat) (c : CacheMap) (h : Inv c clock) :
    Inv (c.filter (fun s => ¬ s.expiresAt < now)) (clock + 1) :=
  inv_mono _ clock (clock + 1)
    (inv_sublist _ c clock (List.filter_sublist c) h) (Nat.le_succ clock)

theorem inv_applyOp (clock : Nat) (c : CacheMap) (op : COp)
    (h : Inv c clock) (hop : op.setsEmptyKey = false) :
    Inv (applyOp clock c op) (clock + 1) := by
  match op with
  | .get key now => exact inv_getCached key now clock c h
  | .set key value ttlMs now =>
      have : key ≠ "" := by simpa [COp.setsEmptyKey] using hop
      exact inv_setCache key value ttlMs now clock c h this
  | .sweep now => exact inv_sweep now clock c h

theorem inv_runOps (ops : List COp) (c : CacheMap) (clock : Nat)
    (h : Inv c clock) (hops : ∀ op ∈ ops, op.setsEmptyKey = false) :
    Inv (runOps ops c clock) (clock + ops.length) := by
  induction ops generalizing c clock with
  | nil => simpa using h
  | cons op rest ih =>
      have h1 := inv_applyOp clock c op h (hops op (by simp))
      have := ih (applyOp clock c op) (clock + 1) h1
        (fun o ho => hops o (by simp [ho]))
      simpa [runOps, Nat.add_comm, Nat.add_assoc, Nat.add_left_comm] using this

theorem getCached_hit_shape (key : String) (now clock : Nat) (c : CacheMap)
    (v : String) (c' : CacheMap)
    (h : getCached key now clock c = (some v, c')) :
    ∃ s, c.find? (fun s => s.key = key) = some s ∧ s.key = key ∧
      c' = eraseKey key c ++ [{ s with lastAccess := clock }] := by
  match hf : c.find? (fun s => s.key = key) with
  | none => simp [getCached, hf] at h
  | some s =>
      have hkey : s.key = key := by simpa using List.find?_some hf
      by_cases hexp : s.expiresAt < now
      · simp [getCached, hf, hexp] at h
      · refine ⟨s, hf, hkey, ?_⟩
        simp only [getCached, hf, if_neg hexp, Prod.mk.injEq] at h
        exact h.2.symm

theorem setCache_evicts_lru (c : CacheMap) (clock : Nat) (h : Inv c clock)
    (hcap : MAX_ENTRIES ≤ c.length) :
    ∃ f rest, c = f :: rest ∧
      (∀ (key value : String) (ttlMs now2 clock2 : Nat),
        setCache key value ttlMs now2 clock2 c =
          mapSet key value (now2 + ttlMs) clock2 rest) ∧
      ∀ t ∈ accessTimes c, f.lastAccess ≤ t := by
  cases c with
  | nil => simp [MAX_ENTRIES] at hcap
  | cons f rest =>
      refine ⟨f, rest, rfl, ?_, ?_⟩
      · intro key value ttlMs now2 clock2
        have hfk : f.key ≠ "" := h.noEmptyKey f.key (by simp [keys])
        have hcap2 : MAX_ENTRIES ≤ rest.length + 1 := by simpa using hcap
        simp [setCache, hcap2, hfk]
      · intro t ht
        simp only [accessTimes, List.map_cons, List.mem_cons] at ht
        rcases ht with ht | ht
        · exact ht ▸ le_refl _
        · have hp := h.sorted
          simp only [accessTimes, List.map_cons, List.pairwise_cons] at hp
          exact le_of_lt (hp.1 t ht)

theorem keys_mapSet_superset (k key value : String) (e cl : Nat) (c : CacheMap)
    (h : k ∈ keys c) : k ∈ keys (mapSet key value e cl c) := by
  induction c with
  | nil => simp [keys] at h
  | cons s rest ih =>
      by_cases hk : s.key = key
      · have hkeys : keys ({ s with value := value, expiresAt := e } :: rest) =
            keys (s :: rest) := by simp [keys]
        simp only [mapSet, if_pos hk]
        rw [hkeys]
        exact h
      · rcases (by simpa [keys] using h) with h1 | h2
        · simp [mapSet, hk, keys, h1]
        · simp only [mapSet, if_neg hk, keys, List.map_cons, List.mem_cons]
          exact Or.inr (by simpa [keys] using ih (by simpa [keys] using h2))

theorem hit_protects (key : String) (now clock : Nat) (c : CacheMap)
    (v : String) (c' : CacheMap)
    (h : getCached key now clock c = (some v, c')) (hlen : 2 ≤ c'.length)
    (key2 value : String) (ttlMs now2 clock2 : Nat) :
    key ∈ keys (setCache key2 value ttlMs now2 clock2 c') := by
  obtain ⟨s, hf, hkey, hc⟩ := getCached_hit_shape key now clock c v c' h
  obtain ⟨f, rest, rfl⟩ : ∃ f rest, c' = f :: rest := by
    cases c' with
    | nil => simp at hlen
    | cons f rest => exact ⟨f, rest, rfl⟩
  have hmem : key ∈ keys (f :: rest) := by
    rw [hc]
    simp [keys, hkey]
  by_cases hcap : MAX_ENTRIES ≤ rest.length + 1
  · by_cases hf0 : f.key = ""
    · have hred : setCache key2 value ttlMs now2 clock2 (f :: rest) =
          mapSet key2 value (now2 + ttlMs) clock2 (f :: rest) := by
        simp [setCache, hcap, hf0]
      rw [hred]
      exact keys_mapSet_superset key key2 value _ _ (f :: rest) hmem
    · have hred : setCache key2 value ttlMs now2 clock2 (f :: rest) =
          mapSet key2 value (now2 + ttlMs) clock2 rest := by
        simp [setCache, hcap, hf0]
      rw [hred]
      have he : eraseKey key c ++ [{ s with lastAccess := clock }] = f :: rest :=
        hc.symm
      have hkrest : key ∈ keys rest := by
        cases herase : eraseKey key c with
        | nil =>
            rw [herase] at he
            simp at he
            obtain ⟨-, he2⟩ := he
            subst he2
            simp at hlen
        | cons e es =>
            rw [herase] at he
            simp at he
            obtain ⟨-, he2⟩ := he
            subst he2
            simp [keys, hkey]
      exact keys_mapSet_superset key key2 value _ _ rest hkrest
  · have hred : setCache key2 value ttlMs now2 clock2 (f :: rest) =
        mapSet key2 value (now2 + ttlMs) clock2 (f :: rest) := by
      simp [setCache, hcap]
    rw [hred]
    exact keys_mapSet_superset key key2 value _ _ (f :: rest) hmem

end Cache

namespace AI

theorem tryProviders_attempted (now : Nat) (outcome : ProviderSlot → AttemptOutcome)
    (l : List ProviderSlot) (st : GenAttemptState) :
    ∃ l2, (tryProviders now outcome l st).2.attempted = st.attempted ++ l2 ∧
      l2.Sublist l := by
  induction l, st using tryProviders.induct now outcome with
  | case1 st => exact ⟨[], by simp [tryProviders], List.nil_sublist _⟩
  | case2 key rest st p hrl ih =>
      obtain ⟨l2, he, hs⟩ := ih
      refine ⟨l2, ?_, hs.cons key⟩
      rw [tryProviders, if_pos hrl]
      exact he
  | case3 key rest st p hrl st1 st2 houtcome ih =>
      obtain ⟨l2, he, hs⟩ := ih
      refine ⟨key :: l2, ?_, hs.cons₂ key⟩
      have hst1 : st1.attempted = st.attempted := by
        unfold st1
        by_cases h0 : 0 < p.rateLimitedUntil <;> simp [h0]
      have hred : tryProviders now outcome (key :: rest) st =
          tryProviders now outcome rest st2 := by
        rw [tryProviders, if_neg hrl]
        simp only [houtcome]
        simp
      rw [hred, he]
      have hst2 : st2.attempted = st.attempted ++ [key] := by
        unfold st2
        rw [hst1]
      rw [hst2]
      simp
  | case4 key rest st p hrl text htext houtcome =>
      refine ⟨[key], ?_, (List.nil_sublist rest).cons₂ key⟩
      rw [tryProviders, if_neg hrl]
      simp only [houtcome]
      by_cases h0 : 0 < p.rateLimitedUntil <;> simp [h0, htext]
  | case5 key rest st p hrl st1 st2 houtcome ih =>
      obtain ⟨l2, he, hs⟩ := ih
      refine ⟨key :: l2, ?_, hs.cons₂ key⟩
      have hst1 : st1.attempted = st.attempted := by
        unfold st1
        by_cases h0 : 0 < p.rateLimitedUntil <;> simp [h0]
      have hred : tryProviders now outcome (key :: rest) st =
          tryProviders now outcome rest st2 := by
        rw [tryProviders, if_neg hrl]
        simp only [houtcome]
      rw [hred, he]
      have hst2 : st2.attempted = st.attempted ++ [key] := by
        unfold st2
        rw [hst1]
      rw [hst2]
      simp
  | case6 key rest st p hrl st1 st2 status msg houtcome st3 st4 ih =>
      obtain ⟨l2, he, hs⟩ := ih
      refine ⟨key :: l2, ?_, hs.cons₂ key⟩
      have hst1 : st1.attempted = st.attempted := by
        unfold st1
        by_cases h0 : 0 < p.rateLimitedUntil <;> simp [h0]
      have hst4 : st4.attempted = st.attempted ++ [key] := by
        unfold st4 st3 st2
        by_cases h1 : status = some 429 ∨ status = some 402 <;>
          by_cases h2 : status = some 404 <;> simp [h1, h2, hst1]
      have hred : tryProviders now outcome (key :: rest) st =
          tryProviders now outcome rest st4 := by
        rw [tryProviders, if_neg hrl]
        simp only [houtcome]
      rw [hred, he, hst4]
      simp

theorem tryProviders_error (now : Nat) (outcome : ProviderSlot → AttemptOutcome)
    (l : List ProviderSlot) (st : GenAttemptState)
    (hno : ∀ k ∈ l, ∀ t, outcome k = .response (some t) → t = "") :
    ∃ e, (tryProviders now outcome l st).1 = .error e := by
  induction l, st using tryProviders.induct now outcome with
  | case1 st => exact ⟨_, by rw [tryProviders]⟩
  | case2 key rest st p hrl ih =>
      rw [tryProviders, if_pos hrl]
      exact ih (fun k hk => hno k (List.mem_cons_of_mem key hk))
  | case3 key rest st p hrl st1 st2 houtcome ih =>
      have hred : tryProviders now outcome (key :: rest) st =
          tryProviders now outcome rest st2 := by
        rw [tryProviders, if_neg hrl]
        simp only [houtcome]
        simp
      rw [hred]
      exact ih (fun k hk => hno k (List.mem_cons_of_mem key hk))
  | case4 key rest st p hrl text htext houtcome =>
      exact absurd (hno key (List.mem_cons_self key rest) text houtcome) htext
  | case5 key rest st p hrl st1 st2 houtcome ih =>
      have hred : tryProviders now outcome (key :: rest) st =
          tryProviders now outcome rest st2 := by
        rw [tryProviders, if_neg hrl]
        simp only [houtcome]
      rw [hred]
      exact ih (fun k hk => hno k (List.mem_cons_of_mem key hk))
  | case6 key rest st p hrl st1 st2 status msg houtcome st3 st4 ih =>
      have hred : tryProviders now outcome (key :: rest) st =
          tryProviders now outcome rest st4 := by
        rw [tryProviders, if_neg hrl]
        simp only [houtcome]
      rw [hred]
      exact ih (fun k hk => hno k (List.mem_cons_of_mem key hk))

end AI

namespace RAG

theorem relevantChunks_threshold (query : String) (results : List RawChunk)
    (rerankTop : Nat) :
    ∀ c ∈ relevantChunks query results rerankTop,
      SIMILARITY_THRESHOLD ≤ c.similarity := by
  intro c hc
  have h1 := List.take_subset rerankTop _ hc
  have h2 := (List.perm_insertionSort (fun a b => b.similarity ≤ a.similarity)
    ((scoredChunks query results).filter
      (fun c => SIMILARITY_THRESHOLD ≤ c.similarity))).subset h1
  simpa using (List.mem_filter.mp h2).2

theorem ragPipeline_none_of_low (query : String) (results : List RawChunk)
    (rerankTop : Nat) (a : String) (f t : List String)
    (hlow : ∀ c ∈ scoredChunks query results,
      c.similarity < SIMILARITY_THRESHOLD) :
    ragPipeline query results rerankTop a f t = none := by
  have hfilter : (scoredChunks query results).filter
      (fun c => SIMILARITY_THRESHOLD ≤ c.similarity) = [] := by
    rw [List.filter_eq_nil_iff]
    intro c hc
    simpa using not_le.mpr (hlow c hc)
  have hrel : relevantChunks query results rerankTop = [] := by
    simp [relevantChunks, hfilter]
  by_cases hres : results.isEmpty
  · simp [ragPipeline, hres]
  · simp [ragPipeline, hres, hrel]

theorem ragPipeline_sources_relevance (query : String) (results : List RawChunk)
    (rerankTop : Nat) (a : String) (f t : List String) (r : RAGResult)
    (h : ragPipeline query results rerankTop a f t = some r) :
    ∀ cit ∈ r.sources, SIMILARITY_THRESHOLD ≤ cit.relevance := by
  by_cases hres : results.isEmpty
  · simp [ragPipeline, hres] at h
  · by_cases hrel : (relevantChunks query results rerankTop).isEmpty
    · simp [ragPipeline, hres, hrel] at h
    · rw [ragPipeline, if_neg (by simpa using hres)] at h
      rw [if_neg hrel, Option.some.injEq] at h
      subst h
      intro cit hcit
      simp only [List.mem_map] at hcit
      obtain ⟨cc, hcc, rfl⟩ := hcit
      exact relevantChunks_threshold query results rerankTop cc hcc

end RAG

/-! ## Claim theorems -/

/-- C1: on every interleaving of `acquire`/`release` events in which
`release` is only performed by a caller holding a slot, the number of slot
holders (immediate grants plus waiters handed a freed slot, minus
releases) always equals the `running` count and never exceeds
`maxConcurrent = 2`; and `generateCompletion` pairs its acquire with a
release on every exit path, so a call entered with a free slot and an
empty wait list leaves the running and holder counts unchanged whether it
returns a completion or throws after all providers fail. -/
theorem c1_queue_never_exceeds_max
    (es : List Queue.Event)
    (_hv : Queue.validFrom Queue.maxConcurrent Queue.initState es = true) :
    ((Queue.run Queue.maxConcurrent Queue.initState es).holders ≤ Queue.maxConcurrent ∧
     (Queue.run Queue.maxConcurrent Queue.initState es).holders =
       (Queue.run Queue.maxConcurrent Queue.initState es).running) ∧
    (∀ (priority : List AI.ProviderSlot) (now : Nat)
        (outcome : AI.ProviderSlot → AI.AttemptOutcome)
        (provs : AI.ProviderSlot → AI.ProviderState) (q : Queue.QueueState),
      q.running < Queue.maxConcurrent → q.waiting = [] →
      (AI.generateCompletion priority now outcome provs q).2.running = q.running ∧
      (AI.generateCompletion priority now outcome provs q).2.holders = q.holders) := by
  constructor
  · have h := Queue.inv_run Queue.maxConcurrent Queue.initState es
      (Queue.inv_init Queue.maxConcurrent)
    refine ⟨?_, h.1⟩
    rw [h.1]
    exact h.2.1
  · intro priority now outcome provs q hr hw
    constructor <;> simp [AI.generateCompletion, Queue.step, hr, hw]

/-- Witness for c1_queue_never_exceeds_max: a concrete valid trace with
three acquires (the third queues) and three releases, plus a
generateCompletion call whose providers all fail, run from the initial
queue state. -/
theorem c1_queue_never_exceeds_max_witness :
    Queue.validFrom Queue.maxConcurrent Queue.initState
      [Queue.Event.acquire, Queue.Event.acquire, Queue.Event.acquire,
       Queue.Event.release, Queue.Event.release, Queue.Event.release] = true ∧
    (Queue.run Queue.maxConcurrent Queue.initState
      [Queue.Event.acquire, Queue.Event.acquire, Queue.Event.acquire,
       Queue.Event.release, Queue.Event.release, Queue.Event.release]).holders ≤
      Queue.maxConcurrent ∧
    (AI.generateCompletion (AI.PROVIDER_PRIORITY AI.initialProviders) 5
        (fun _ => AI.AttemptOutcome.failure (some 500) "server error")
        AI.initialProviders Queue.initState).2.running = Queue.initState.running :=
  ⟨by decide,
   (c1_queue_never_exceeds_max
     [Queue.Event.acquire, Queue.Event.acquire, Queue.Event.acquire,
      Queue.Event.release, Queue.Event.release, Queue.Event.release]
     (by decide)).1.1,
   ((c1_queue_never_exceeds_max [] (by decide)).2
     (AI.PROVIDER_PRIORITY AI.initialProviders) 5
     (fun _ => AI.AttemptOutcome.failure (some 500) "server error")
     AI.initialProviders Queue.initState (by decide) rfl).1⟩

/-- C6: on every reachable queue state, `resumed ++ waiting = enqueued`,
so waiters are handed slots in exactly the order their acquire calls were
queued (strict FIFO); a release with a non-empty wait list pops the head,
appends it to the resumed sequence and leaves the running count
unchanged; a release with an empty wait list decrements the running
count. -/
theorem c6_fifo_release
    (es : List Queue.Event) (max : Nat) (s : Queue.QueueState) :
    ((Queue.run Queue.maxConcurrent Queue.initState es).resumed ++
       (Queue.run Queue.maxConcurrent Queue.initState es).waiting =
     (Queue.run Queue.maxConcurrent Queue.initState es).enqueued) ∧
    (∀ (w : Nat) (rest : List Nat), s.waiting = w :: rest →
      (Queue.step max s .release).running = s.running ∧
      (Queue.step max s .release).resumed = s.resumed ++ [w] ∧
      (Queue.step max s .release).waiting = rest) ∧
    (s.waiting = [] → (Queue.step max s .release).running = s.running - 1) := by
  refine ⟨(Queue.inv_run Queue.maxConcurrent Queue.initState es
    (Queue.inv_init Queue.maxConcurrent)).2.2, ?_, ?_⟩
  · intro w rest hw
    refine ⟨?_, ?_, ?_⟩ <;> simp [Queue.step, hw]
  · intro hw
    simp [Queue.step, hw]

/-- Witness for c6_fifo_release: a release with waiters 7,8,9 resumes 7
and keeps running at 2; a release with no waiters drops running from 1 to
0. -/
theorem c6_fifo_release_witness :
    (Queue.step 2 ⟨2, [7, 8, 9], [], [7, 8, 9], 2, 10⟩ Queue.Event.release).resumed =
      [7] ∧
    (Queue.step 2 ⟨2, [7, 8, 9], [], [7, 8, 9], 2, 10⟩ Queue.Event.release).running = 2 ∧
    (Queue.step 2 ⟨1, [], [5], [5], 1, 6⟩ Queue.Event.release).running = 0 :=
  ⟨by simpa using
      ((c6_fifo_release [] 2 ⟨2, [7, 8, 9], [], [7, 8, 9], 2, 10⟩).2.1 7 [8, 9] rfl).2.1,
   ((c6_fifo_release [] 2 ⟨2, [7, 8, 9], [], [7, 8, 9], 2, 10⟩).2.1 7 [8, 9] rfl).1,
   by simpa using (c6_fifo_release [] 2 ⟨1, [], [5], [5], 1, 6⟩).2.2 rfl⟩

/-- C2: when no provider of the startup priority list produces a
non-empty completion for this request, `generateCompletion` returns
exactly one error; and the attempted sequence is duplicate-free — every
active provider is attempted at most once per logical request. -/
theorem c2_exhaustion_one_error_no_retry
    (provs0 provs : AI.ProviderSlot → AI.ProviderState) (now : Nat)
    (outcome : AI.ProviderSlot → AI.AttemptOutcome) (q : Queue.QueueState)
    (hno : ∀ k ∈ AI.PROVIDER_PRIORITY provs0, ∀ t,
        outcome k = AI.AttemptOutcome.response (some t) → t = "") :
    (∃ e, (AI.generateCompletion (AI.PROVIDER_PRIORITY provs0) now outcome provs
        q).1.1 = Except.error e) ∧
    ((AI.generateCompletion (AI.PROVIDER_PRIORITY provs0) now outcome provs
        q).1.2.attempted).Nodup ∧
    (∀ k, ((AI.generateCompletion (AI.PROVIDER_PRIORITY provs0) now outcome provs
        q).1.2.attempted).count k ≤ 1) := by
  have hnodup : (AI.PROVIDER_PRIORITY provs0).Nodup :=
    List.Nodup.filter _ (by decide)
  have hgen : (AI.generateCompletion (AI.PROVIDER_PRIORITY provs0) now outcome provs
      q).1 = AI.tryProviders now outcome (AI.PROVIDER_PRIORITY provs0)
        ⟨provs, [], none⟩ := rfl
  obtain ⟨l2, he, hs⟩ := AI.tryProviders_attempted now outcome
    (AI.PROVIDER_PRIORITY provs0) ⟨provs, [], none⟩
  obtain ⟨e, herr⟩ := AI.tryProviders_error now outcome
    (AI.PROVIDER_PRIORITY provs0) ⟨provs, [], none⟩ hno
  have hnd : ((AI.generateCompletion (AI.PROVIDER_PRIORITY provs0) now outcome provs
      q).1.2.attempted).Nodup := by
    rw [hgen, he]
    simpa using List.Nodup.sublist hs hnodup
  refine ⟨⟨e, by rw [hgen, herr]⟩, hnd, fun k => List.nodup_iff_count_le_one.mp hnd k⟩

/-- Witness for c2_exhaustion_one_error_no_retry: every provider answers
429, so the call errors once and the attempted list is duplicate-free. -/
theorem c2_exhaustion_one_error_no_retry_witness :
    (∃ e, (AI.generateCompletion (AI.PROVIDER_PRIORITY AI.initialProviders) 3
        (fun _ => AI.AttemptOutcome.failure (some 429) "rate limited")
        AI.initialProviders Queue.initState).1.1 = Except.error e) ∧
    ((AI.generateCompletion (AI.PROVIDER_PRIORITY AI.initialProviders) 3
        (fun _ => AI.AttemptOutcome.failure (some 429) "rate limited")
        AI.initialProviders Queue.initState).1.2.attempted).Nodup :=
  ⟨(c2_exhaustion_one_error_no_retry AI.initialProviders AI.initialProviders 3
      (fun _ => AI.AttemptOutcome.failure (some 429) "rate limited")
      Queue.initState (fun k _ t ht => absurd ht (by simp))).1,
   (c2_exhaustion_one_error_no_retry AI.initialProviders AI.initialProviders 3
      (fun _ => AI.AttemptOutcome.failure (some 429) "rate limited")
      Queue.initState (fun k _ t ht => absurd ht (by simp))).2.1⟩

/-- C3 (code evaluation at the failing input): after a first call in which
gemini1 answers 404 — which sets `isActive := false` and logs that the
provider is disabled — the very next `generateCompletion` call attempts
gemini1 again and even returns its response: `PROVIDER_PRIORITY` was
filtered once at startup and `isActive` is never consulted afterwards, so
the documented permanent disable has no effect. -/
theorem c3_disabled_provider_attempted_again :
    (AI.provsAfter404 AI.ProviderSlot.gemini1).isActive = false ∧
    AI.ProviderSlot.gemini1 ∈
      (AI.generateCompletion (AI.PROVIDER_PRIORITY AI.initialProviders) 2000
        (fun _ => AI.AttemptOutcome.response (some "hello")) AI.provsAfter404
        Queue.initState).1.2.attempted ∧
    (AI.generateCompletion (AI.PROVIDER_PRIORITY AI.initialProviders) 2000
        (fun _ => AI.AttemptOutcome.response (some "hello")) AI.provsAfter404
        Queue.initState).1.1 = Except.ok "hello" :=
  ⟨rfl, by decide, rfl⟩

/-- C4 (code evaluation at the failing input): with every provider in
cooldown at call time (`now = 10`, soonest recovery gemini2 at 50),
`generateCompletion` attempts no provider at all and throws — while the
never-called `getActiveProvider` would indeed have picked gemini2, the
soonest to recover. -/
theorem c4_all_cooling_attempts_nobody :
    (AI.generateCompletion (AI.PROVIDER_PRIORITY AI.initialProviders) 10
        (fun _ => AI.AttemptOutcome.response (some "ready")) AI.coolingProviders
        Queue.initState).1.2.attempted = [] ∧
    (AI.generateCompletion (AI.PROVIDER_PRIORITY AI.initialProviders) 10
        (fun _ => AI.AttemptOutcome.response (some "ready")) AI.coolingProviders
        Queue.initState).1.1 =
      Except.error ⟨"all", "All LLM providers failed"⟩ ∧
    (AI.getActiveProvider 10 (AI.PROVIDER_PRIORITY AI.initialProviders)
        AI.coolingProviders).map Prod.fst = some AI.ProviderSlot.gemini2 :=
  ⟨rfl, rfl, rfl⟩

/-- C9 counterexample: a provider whose completion is the single space
" " — blank but non-empty — is NOT treated as a soft failure: its text is
returned as the successful result and no further provider is attempted,
contradicting the claim that a blank completion advances to the next
provider. -/
theorem c9_blank_completion_returned :
    (AI.generateCompletion (AI.PROVIDER_PRIORITY AI.initialProviders) 10
        (fun k => if k = AI.ProviderSlot.gemini1 then
            AI.AttemptOutcome.response (some " ")
          else AI.AttemptOutcome.response (some "fallback"))
        AI.initialProviders Queue.initState).1.1 = Except.ok " " ∧
    (AI.generateCompletion (AI.PROVIDER_PRIORITY AI.initialProviders) 10
        (fun k => if k = AI.ProviderSlot.gemini1 then
            AI.AttemptOutcome.response (some " ")
          else AI.AttemptOutcome.response (some "fallback"))
        AI.initialProviders Queue.initState).1.2.attempted =
      [AI.ProviderSlot.gemini1] :=
  ⟨rfl, rfl⟩

/-- C9 amended: a missing or zero-length (`!text` falsy) completion is a
soft failure — the provider is recorded as attempted and iteration
proceeds to the remaining providers in priority order; a non-empty
completion, even one consisting only of whitespace, is returned as the
successful result. -/
theorem c9_empty_completion_soft_failure
    (now : Nat) (outcome : AI.ProviderSlot → AI.AttemptOutcome)
    (key : AI.ProviderSlot) (rest : List AI.ProviderSlot)
    (st : AI.GenAttemptState)
    (helig : (st.provs key).rateLimitedUntil = 0) :
    ((outcome key = AI.AttemptOutcome.response none ∨
      outcome key = AI.AttemptOutcome.response (some "")) →
      AI.tryProviders now outcome (key :: rest) st =
        AI.tryProviders now outcome rest
          { st with attempted := st.attempted ++ [key] }) ∧
    (∀ t, outcome key = AI.AttemptOutcome.response (some t) → t ≠ "" →
      AI.tryProviders now outcome (key :: rest) st =
        (Except.ok t, { st with attempted := st.attempted ++ [key] })) := by
  have hcond : ¬(0 < (st.provs key).rateLimitedUntil ∧
      now < (st.provs key).rateLimitedUntil) := by
    rw [helig]
    simp
  constructor
  · rintro (h | h) <;>
    · rw [AI.tryProviders, if_neg hcond]
      simp [h, helig]
  · intro t ht hne
    rw [AI.tryProviders, if_neg hcond]
    simp [ht, hne, helig]

set_option maxRecDepth 10000 in
/-- C5 counterexample: 201 setCache calls on distinct keys, the first of
which is the empty string, leave the cache with 201 > MAX_ENTRIES = 200
entries.  At capacity the eviction guard `if (lruKey)` treats the falsy
oldest key `""` as absent and skips eviction, so the unrestricted claim
"the cache holds at most 200 entries after every sequence of getCached and
setCache operations" is false. -/
theorem c5_capacity_exceeded_on_empty_key :
    (Cache.runOps Cache.c5CexOps [] 0).length = 201 ∧
    Cache.MAX_ENTRIES < (Cache.runOps Cache.c5CexOps [] 0).length := by
  have h : (Cache.runOps Cache.c5CexOps [] 0).length = 201 := by decide
  refine ⟨h, ?_⟩
  rw [h]
  decide

/-- C5 amended: for every sequence of getCached/setCache/sweep operations
in which setCache is never called with the empty-string key, the cache
holds at most 200 entries; when setCache runs at capacity it evicts the
front entry, which is the least-recently-accessed one (its ghost
last-access time is minimal); and an entry just read by getCached (hence
moved to the back) survives the next setCache whenever at least one other
entry is present — in particular always at capacity 200. -/
theorem c5_lru_bounded_and_protects
    (ops : List Cache.COp)
    (hops : ∀ op ∈ ops, op.setsEmptyKey = false) :
    (Cache.runOps ops [] 0).length ≤ Cache.MAX_ENTRIES ∧
    (Cache.MAX_ENTRIES ≤ (Cache.runOps ops [] 0).length →
      ∃ f rest, Cache.runOps ops [] 0 = f :: rest ∧
        (∀ (key value : String) (ttlMs now2 clock2 : Nat),
          Cache.setCache key value ttlMs now2 clock2 (Cache.runOps ops [] 0) =
            Cache.mapSet key value (now2 + ttlMs) clock2 rest) ∧
        (∀ t ∈ Cache.accessTimes (Cache.runOps ops [] 0), f.lastAccess ≤ t)) ∧
    (∀ (key : String) (now : Nat) (v : String) (c' : Cache.CacheMap),
      Cache.getCached key now ops.length (Cache.runOps ops [] 0) = (some v, c') →
      2 ≤ c'.length →
      ∀ (key2 value : String) (ttlMs now2 clock2 : Nat),
        key ∈ Cache.keys (Cache.setCache key2 value ttlMs now2 clock2 c')) := by
  have hinv : Cache.Inv (Cache.runOps ops [] 0) (0 + ops.length) :=
    Cache.inv_runOps ops [] 0 (Cache.inv_nil 0) hops
  refine ⟨hinv.size, ?_, ?_⟩
  · intro hcap
    exact Cache.setCache_evicts_lru (Cache.runOps ops [] 0) (0 + ops.length) hinv hcap
  · intro key now v c' hget hlen key2 value ttlMs now2 clock2
    exact Cache.hit_protects key now ops.length (Cache.runOps ops [] 0) v c' hget
      hlen key2 value ttlMs now2 clock2

/-- Witness for c5_lru_bounded_and_protects: two inserts followed by a
read of the older key; the size stays within bounds and the read key
survives a subsequent insert. -/
theorem c5_lru_bounded_and_protects_witness :
    (Cache.runOps
      [Cache.COp.set "a" "1" 600 0, Cache.COp.set "b" "2" 600 0,
       Cache.COp.get "a" 1] [] 0).length ≤ Cache.MAX_ENTRIES ∧
    "a" ∈ Cache.keys (Cache.setCache "c" "3" 600 5 4
      (Cache.getCached "a" 3 3 (Cache.runOps
        [Cache.COp.set "a" "1" 600 0, Cache.COp.set "b" "2" 600 0,
         Cache.COp.get "a" 1] [] 0)).2) :=
  ⟨(c5_lru_bounded_and_protects
      [Cache.COp.set "a" "1" 600 0, Cache.COp.set "b" "2" 600 0,
       Cache.COp.get "a" 1] (by decide)).1,
   (c5_lru_bounded_and_protects
      [Cache.COp.set "a" "1" 600 0, Cache.COp.set "b" "2" 600 0,
       Cache.COp.get "a" 1] (by decide)).2.2 "a" 3 "1" _ (by decide) (by decide)
      "c" "3" 600 5 4⟩

/-- C8: when every scored neighbor's boosted similarity is below the 0.3
threshold the grounded path is abandoned: the RAG pipeline yields `none`
and the answer comes from the LLM-only fallback with zero citations and
the fixed confidence 0.5, which lies below the 0.6 grounded band; and in
general no chunk below the threshold ever reaches the generation prompt
(the `relevantChunks` the prompt is built from) or the citation list. -/
theorem c8_low_similarity_ungrounded
    (query : String) (results : List RAG.RawChunk) (rerankTop : Nat)
    (ragAnswer : String) (ragF ragT : List String)
    (llmAnswer : String) (llmF llmT : List String)
    (hlow : ∀ c ∈ RAG.scoredChunks query results,
      c.similarity < RAG.SIMILARITY_THRESHOLD) :
    RAG.ragPipeline query results rerankTop ragAnswer ragF ragT = none ∧
    (RAG.handleAsk query results rerankTop ragAnswer ragF ragT llmAnswer llmF
      llmT).sources = [] ∧
    (RAG.handleAsk query results rerankTop ragAnswer ragF ragT llmAnswer llmF
      llmT).confidence = 1 / 2 ∧
    ((1 : ℚ) / 2 < 3 / 5) ∧
    (∀ (q2 : String) (rs : List RAG.RawChunk) (k : Nat),
      ∀ c ∈ RAG.relevantChunks q2 rs k, RAG.SIMILARITY_THRESHOLD ≤ c.similarity) ∧
    (∀ (q2 : String) (rs : List RAG.RawChunk) (k : Nat) (a : String)
        (f t : List String) (r : RAG.RAGResult),
      RAG.ragPipeline q2 rs k a f t = some r →
      ∀ cit ∈ r.sources, RAG.SIMILARITY_THRESHOLD ≤ cit.relevance) := by
  have hnone := RAG.ragPipeline_none_of_low query results rerankTop ragAnswer
    ragF ragT hlow
  refine ⟨hnone, ?_, ?_, by norm_num,
    fun q2 rs k => RAG.relevantChunks_threshold q2 rs k,
    fun q2 rs k a f t r h => RAG.ragPipeline_sources_relevance q2 rs k a f t r h⟩
  · simp [RAG.handleAsk, hnone, RAG.llmOnlyAnswer]
  · simp [RAG.handleAsk, hnone, RAG.llmOnlyAnswer]

/-- Witness for c8_low_similarity_ungrounded: one neighbor at distance
0.9 (similarity 0.1, no keyword boost) falls below the threshold, so the
pipeline returns none and the LLM-only confidence 0.5 is served. -/
theorem c8_low_similarity_ungrounded_witness :
    (∀ c ∈ RAG.scoredChunks "q" [⟨"1", "doc", none, none, 9 / 10⟩],
      c.similarity < RAG.SIMILARITY_THRESHOLD) ∧
    RAG.ragPipeline "q" [⟨"1", "doc", none, none, 9 / 10⟩] 5 "ga" [] [] = none ∧
    (RAG.handleAsk "q" [⟨"1", "doc", none, none, 9 / 10⟩] 5 "ga" [] [] "la" []
      []).confidence = 1 / 2 := by
  have hlow : ∀ c ∈ RAG.scoredChunks "q" [⟨"1", "doc", none, none, 9 / 10⟩],
      c.similarity < RAG.SIMILARITY_THRESHOLD := by
    intro c hc
    simp [RAG.scoredChunks, RAG.queryTerms, Str.splitBy, Str.splitOnPred,
      Str.jsToLower, Str.isJsWs, RAG.strContains, RAG.SIMILARITY_THRESHOLD,
      List.filter] at hc ⊢
    subst hc
    norm_num [List.filter, RAG.strContains]
  exact ⟨hlow,
    (c8_low_similarity_ungrounded "q" [⟨"1", "doc", none, none, 9 / 10⟩] 5 "ga"
      [] [] "la" [] [] hlow).1,
    (c8_low_similarity_ungrounded "q" [⟨"1", "doc", none, none, 9 / 10⟩] 5 "ga"
      [] [] "la" [] [] hlow).2.2.1⟩

/-- C7: parseJSON is a total function of the raw model output — every
fallible step (each `JSON.parse`, each property read) runs inside a
strategy's try/catch, modelled by the strategies returning `Option` — and
in the worst case, when all four recovery strategies fail, it returns the
cleaned raw text, sanitized, as the answer with empty followups and
takeaways lists. -/
theorem c7_parse_total_fallback
    (raw : String)
    (h1 : Parser.attempt1 (Parser.cleanFences raw) = none)
    (h2 : Parser.attempt2 (Parser.cleanFences raw) = none)
    (h3 : Parser.attempt3 (Parser.cleanFences raw) = none)
    (h4 : Parser.attempt4 (Parser.cleanFences raw) = none) :
    Parser.parseJSON raw =
      ⟨some (.str (Parser.sanitizeStr (Parser.cleanFences raw))),
       some (.arr []), some (.arr [])⟩ := by
  simp only [Parser.parseJSON, h1, h2, h3, h4]

/-- Witness for c7_parse_total_fallback: plain prose defeats every
strategy and comes back unchanged as the answer with empty lists. -/
theorem c7_parse_total_fallback_witness :
    Parser.parseJSON "no json here at all" =
      ⟨some (.str "no json here at all"), some (.arr []), some (.arr [])⟩ := by
  have h := c7_parse_total_fallback "no json here at all" rfl rfl rfl rfl
  rw [h]
  rfl

/-- C10: generateEmbeddings is total at its public interface: assuming the
batch API honours its contract of one embedding per request entry, the
result has exactly one vector per input text; a missing API key (both the
dedicated and the gemini1 key empty) or a failed API call silently yields
the deterministic hash embedding for every text; and in every case the
result is either the API's vectors or the hash fallback — never a
propagated error. -/
theorem c10_embeddings_total
    (embeddingApiKey gemini1ApiKey : String)
    (api : Except String (List (List ℚ))) (texts : List String)
    (hwf : ∀ embs, api = Except.ok embs → embs.length = texts.length) :
    (Embed.generateEmbeddings embeddingApiKey gemini1ApiKey api texts).length =
      texts.length ∧
    (embeddingApiKey = "" → gemini1ApiKey = "" →
      Embed.generateEmbeddings embeddingApiKey gemini1ApiKey api texts =
        texts.map (fun t => Embed.simpleHashEmbedding t)) ∧
    (∀ e, api = Except.error e →
      Embed.generateEmbeddings embeddingApiKey gemini1ApiKey api texts =
        texts.map (fun t => Embed.simpleHashEmbedding t)) ∧
    ((∃ embs, api = Except.ok embs ∧
        Embed.generateEmbeddings embeddingApiKey gemini1ApiKey api texts = embs) ∨
      Embed.generateEmbeddings embeddingApiKey gemini1ApiKey api texts =
        texts.map (fun t => Embed.simpleHashEmbedding t)) := by
  by_cases h1 : embeddingApiKey = "" <;> by_cases h2 : gemini1ApiKey = "" <;>
    cases api with
    | ok embs =>
        refine ⟨?_, ?_, ?_, ?_⟩ <;>
          simp_all [Embed.generateEmbeddings, hwf embs rfl]
    | error e =>
        refine ⟨?_, ?_, ?_, ?_⟩ <;> simp_all [Embed.generateEmbeddings]

/-- Witness for c10_embeddings_total: with no API keys and a failed API
call, one text yields exactly one hash-based vector. -/
theorem c10_embeddings_total_witness :
    (Embed.generateEmbeddings "" "" (Except.error "api down") ["abc"]).length = 1 ∧
    Embed.generateEmbeddings "" "" (Except.error "api down") ["abc"] =
      ["abc"].map (fun t => Embed.simpleHashEmbedding t) :=
  ⟨by simpa using (c10_embeddings_total "" "" (Except.error "api down") ["abc"]
     (fun embs h => Except.noConfusion h)).1,
   (c10_embeddings_total "" "" (Except.error "api down") ["abc"]
     (fun embs h => Except.noConfusion h)).2.2.1 "api down" rfl⟩

/-- Witness for c9_empty_completion_soft_failure: a concrete empty
completion from gemini1 is skipped with gemini1 recorded as attempted. -/
theorem c9_empty_completion_soft_failure_witness :
    AI.tryProviders 3 (fun _ => AI.AttemptOutcome.response (some ""))
      [AI.ProviderSlot.gemini1] ⟨AI.initialProviders, [], none⟩ =
      AI.tryProviders 3 (fun _ => AI.AttemptOutcome.response (some "")) []
        ⟨AI.initialProviders, [] ++ [AI.ProviderSlot.gemini1], none⟩ :=
  (c9_empty_completion_soft_failure 3
    (fun _ => AI.AttemptOutcome.response (some "")) AI.ProviderSlot.gemini1 []
    ⟨AI.initialProviders, [], none⟩ rfl).1 (Or.inr rfl)

end OffsecAI
